import Mathlib

/-!
Verification of the resource-graph construction model of the `aws-cdk-docdb`
repository.

The repository's source (`src/lib/aws-cdk-docdb-stack.ts`) is a single CDK
stack that declares, in order: a VPC with a public and a private subnet, a
security group for DocumentDB, a generated DocumentDB credentials secret, a
DocumentDB cluster bound to the private subnet, an ECS security group, an ECS
cluster, a generated payload secret, a Fargate task definition with secret
environment bindings, a Fargate service on the public subnet, an
internet-facing load balancer with one listener and one target, an ingress
rule, one IAM permission grant, and one explicit dependency edge.

The construct semantics (validation, error raising, graph bookkeeping) live in
the external `aws-cdk-lib` library, not in the repository, so the Topology
Builder operations below are modelled from the specification (spec §4.1):
every operation takes the builder state, returns either a `TopologyError` or
a handle plus the updated state, and handles are plain node identifiers.  The
concrete construction sequence (`stackOps`) and all of its arguments are
translated directly from `src/lib/aws-cdk-docdb-stack.ts`.
-/

namespace Topo

/-- Reachability class of an address partition (spec §3):
`ec2.SubnetType.PUBLIC` is externally reachable, `PRIVATE_ISOLATED` is not. -/
inductive ReachabilityClass where
  | externallyReachable
  | isolated
deriving DecidableEq

/-- One entry of `vpc.subnetConfiguration` in the source: a name, a CIDR mask
size and a subnet type. -/
structure PartitionSpec where
  name : String
  addressRangeSize : Nat
  reachabilityClass : ReachabilityClass
deriving DecidableEq

/-- The `generateSecretString` recipe of a Secrets Manager secret: the name of
the generated key, the password length, and the excluded character set.  Only
the recipe is recorded; no secret value exists anywhere in the model. -/
structure GeneratedFieldSpec where
  name : String
  length : Nat
  excludedCharacters : String
deriving DecidableEq

/-- One secret environment binding of the container definition: an
environment-variable name together with a typed reference (node id plus JSON
field name) into a SecretMaterial node — never a plain value. -/
structure EnvBinding where
  envName : String
  secret : Nat
  field : String
deriving DecidableEq

/-- One ingress rule of a traffic filter (`ddbSecurityGroup.addIngressRule`):
the filter it is attached to, the source filter reference, protocol, port and
description. -/
structure IngressRule where
  filter : Nat
  sourceFilter : Nat
  protocol : String
  port : Nat
  description : String
deriving DecidableEq

/-- Payload of a node of the resource graph (spec §3 data model).  Every
cross-reference is a `Nat` node id, i.e. a handle; in particular the
stateful cluster's administrative identity and the task template's
environment bindings store secret handles, never secret values. -/
inductive NodePayload where
  | networkFabric
  | addressPartition (fabric : Nat) (spec : PartitionSpec)
  | trafficFilter (owner : String) (fabric : Nat)
  | secretMaterial (fields : List (String × String)) (generated : GeneratedFieldSpec)
  | statefulServiceCluster (fabric partition filter secret : Nat)
      (instanceClass : String) (instanceCount : Nat)
  | computeCluster (fabric : Nat)
  | taskTemplate (image : String) (cpu memoryMiB : Nat) (ports : List Nat)
      (secretEnvBindings : List EnvBinding)
  | serviceInstance (computeCluster taskTemplate filter partition : Nat)
      (assignPublicAddress : Bool)
  | trafficDistributor (fabric : Nat) (internetFacing : Bool)
  | listener (distributor port : Nat) (protocol : String)
  | permissionGrant (identity : Nat) (actions : List String) (resources : List Nat)
deriving DecidableEq

/-- A node of the resource graph: an id plus a payload. -/
structure TopoNode where
  id : Nat
  payload : NodePayload
deriving DecidableEq

/-- The Topology Builder state (spec §4.1): the open/finalized flag, the next
fresh node id, the declared nodes, the dependency edges (implicit reference
edges plus explicit ordering constraints, each `(before, after)`), the ordered
ingress-rule list and the ordered listener-target list. -/
structure BuilderState where
  finalized : Bool
  nextId : Nat
  nodes : List TopoNode
  edges : List (Nat × Nat)
  ingressRules : List IngressRule
  targets : List (Nat × Nat)
deriving DecidableEq

/-- Error taxonomy of the builder (spec §7). -/
inductive TopologyError where
  | configError
  | cycleError
  | stateError
deriving DecidableEq

/-- The ids of the declared nodes, in declaration order. -/
def nodeIds (nodes : List TopoNode) : List Nat :=
  nodes.map (fun n => n.id)

/-- Look a node id up in the node list. -/
def lookupNode (nodes : List TopoNode) (i : Nat) : Option NodePayload :=
  (nodes.find? (fun n => n.id == i)).map (fun n => n.payload)

/-- Check that node id `i` is declared and its payload satisfies `q`. -/
def payloadTest (nodes : List TopoNode) (i : Nat) (q : NodePayload → Bool) : Bool :=
  match lookupNode nodes i with
  | some p => q p
  | none => false

/-- `i` is a declared node of any kind. -/
def nodeDeclared (nodes : List TopoNode) (i : Nat) : Bool :=
  (lookupNode nodes i).isSome

/-- `i` is a declared NetworkFabric node. -/
def isFabric (nodes : List TopoNode) (i : Nat) : Bool :=
  payloadTest nodes i (fun p => match p with | .networkFabric => true | _ => false)

/-- `i` is a declared TrafficFilter node. -/
def isFilter (nodes : List TopoNode) (i : Nat) : Bool :=
  payloadTest nodes i (fun p => match p with | .trafficFilter _ _ => true | _ => false)

/-- `i` is a declared SecretMaterial node. -/
def isSecret (nodes : List TopoNode) (i : Nat) : Bool :=
  payloadTest nodes i (fun p => match p with | .secretMaterial _ _ => true | _ => false)

/-- `i` is a declared ComputeCluster node. -/
def isComputeCluster (nodes : List TopoNode) (i : Nat) : Bool :=
  payloadTest nodes i (fun p => match p with | .computeCluster _ => true | _ => false)

/-- `i` is a declared TaskTemplate node. -/
def isTaskTemplate (nodes : List TopoNode) (i : Nat) : Bool :=
  payloadTest nodes i (fun p => match p with | .taskTemplate _ _ _ _ _ => true | _ => false)

/-- `i` is a declared ServiceInstance node. -/
def isServiceInstance (nodes : List TopoNode) (i : Nat) : Bool :=
  payloadTest nodes i (fun p => match p with | .serviceInstance _ _ _ _ _ => true | _ => false)

/-- `i` is a declared TrafficDistributor node. -/
def isDistributor (nodes : List TopoNode) (i : Nat) : Bool :=
  payloadTest nodes i (fun p => match p with | .trafficDistributor _ _ => true | _ => false)

/-- `i` is a declared Listener node. -/
def isListener (nodes : List TopoNode) (i : Nat) : Bool :=
  payloadTest nodes i (fun p => match p with | .listener _ _ _ => true | _ => false)

/-- The reachability class of partition node `i`, when `i` is a declared
AddressPartition. -/
def partitionClass (nodes : List TopoNode) (i : Nat) : Option ReachabilityClass :=
  match lookupNode nodes i with
  | some (.addressPartition _ s) => some s.reachabilityClass
  | _ => none

/-- Declare one fresh node with payload `p` and one implicit reference edge
from every node of `deps` to the new node (a referenced node must be created
before its referent). -/
def pushNode (st : BuilderState) (p : NodePayload) (deps : List Nat) : BuilderState :=
  { st with
    nextId := st.nextId + 1
    nodes := st.nodes ++ [⟨st.nextId, p⟩]
    edges := st.edges ++ deps.map (fun d => (d, st.nextId)) }

/-- Decidable reflexive reachability over the edge list: `reachRefl E fuel u v`
is true exactly when there is a path of at most `fuel` edges from `u` to `v`. -/
def reachRefl (E : List (Nat × Nat)) : Nat → Nat → Nat → Bool
  | 0, u, v => u == v
  | fuel + 1, u, v =>
    u == v || E.any (fun e => e.1 == u && reachRefl E fuel e.2 v)

/-- No duplicates among a list of partition names. -/
def namesNodup : List String → Bool
  | [] => true
  | x :: xs => !(xs.contains x) && namesNodup xs

/-- At least one partition of class `c` appears among the specs. -/
def hasClass (specs : List PartitionSpec) (c : ReachabilityClass) : Bool :=
  specs.any (fun s => s.reachabilityClass == c)

/-- Append the partition nodes of a network declaration, each referencing the
fabric node. -/
def addPartitions (fabricId : Nat) (specs : List PartitionSpec) (st : BuilderState) :
    BuilderState :=
  match specs with
  | [] => st
  | s :: rest => addPartitions fabricId rest (pushNode st (.addressPartition fabricId s) [fabricId])

/-- Modelled from the spec: `declareNetwork` (spec §4.1) — the semantics of
`new ec2.Vpc(..., { subnetConfiguration })` is not in the repository.
Creates the fabric node and one partition node per spec; fails with
`TopologyConfigError` when partition names repeat or some reachability class
has no partition; fails with `TopologyStateError` after `finalize`. -/
def declareNetwork (st : BuilderState) (specs : List PartitionSpec) :
    Except TopologyError (Nat × BuilderState) :=
  if st.finalized then .error .stateError
  else if namesNodup (specs.map (fun s => s.name)) = false then .error .configError
  else if hasClass specs .externallyReachable = false then .error .configError
  else if hasClass specs .isolated = false then .error .configError
  else .ok (st.nextId, addPartitions st.nextId specs (pushNode st .networkFabric []))

/-- Modelled from the spec: `declareTrafficFilter` (spec §4.1) — the semantics
of `new ec2.SecurityGroup(..., { vpc })` is not in the repository. -/
def declareTrafficFilter (st : BuilderState) (owner : String) (fabric : Nat) :
    Except TopologyError (Nat × BuilderState) :=
  if st.finalized then .error .stateError
  else if isFabric st.nodes fabric = false then .error .configError
  else .ok (st.nextId, pushNode st (.trafficFilter owner fabric) [fabric])

/-- Modelled from the spec: `declareSecret` (spec §4.1) — the semantics of
`new smg.Secret(..., { generateSecretString })` is not in the repository.
Only the template of known fields and the generation recipe are recorded;
the secret value is never computed by this component. -/
def declareSecret (st : BuilderState) (fields : List (String × String))
    (generated : GeneratedFieldSpec) : Except TopologyError (Nat × BuilderState) :=
  if st.finalized then .error .stateError
  else .ok (st.nextId, pushNode st (.secretMaterial fields generated) [])

/-- Modelled from the spec: `declareStatefulCluster` (spec §4.1) — the
semantics of `new ddb.DatabaseCluster(...)` is not in the repository.
Fails with `TopologyConfigError` when any handle dangles or when the supplied
partition's reachability class is not `isolated`. -/
def declareStatefulCluster (st : BuilderState) (fabric partition filter secret : Nat)
    (instanceClass : String) (instanceCount : Nat) :
    Except TopologyError (Nat × BuilderState) :=
  if st.finalized then .error .stateError
  else if isFabric st.nodes fabric = false then .error .configError
  else if partitionClass st.nodes partition ≠ some .isolated then .error .configError
  else if isFilter st.nodes filter = false then .error .configError
  else if isSecret st.nodes secret = false then .error .configError
  else .ok (st.nextId,
    pushNode st (.statefulServiceCluster fabric partition filter secret instanceClass
      instanceCount) [fabric, partition, filter, secret])

/-- Modelled from the spec: `declareComputeCluster` (spec §4.1) — the
semantics of `new ecs.Cluster(..., { vpc })` is not in the repository. -/
def declareComputeCluster (st : BuilderState) (fabric : Nat) :
    Except TopologyError (Nat × BuilderState) :=
  if st.finalized then .error .stateError
  else if isFabric st.nodes fabric = false then .error .configError
  else .ok (st.nextId, pushNode st (.computeCluster fabric) [fabric])

/-- Modelled from the spec: `declareTaskTemplate` (spec §4.1) — the semantics
of `FargateTaskDefinition` plus `addContainer` is not in the repository.
Fails with `TopologyConfigError` when any bound SecretMaterial is not yet
declared. -/
def declareTaskTemplate (st : BuilderState) (image : String) (cpu memoryMiB : Nat)
    (ports : List Nat) (secretEnvBindings : List EnvBinding) :
    Except TopologyError (Nat × BuilderState) :=
  if st.finalized then .error .stateError
  else if secretEnvBindings.all (fun b => isSecret st.nodes b.secret) = false then
    .error .configError
  else .ok (st.nextId,
    pushNode st (.taskTemplate image cpu memoryMiB ports secretEnvBindings)
      (secretEnvBindings.map (fun b => b.secret)))

/-- Modelled from the spec: `declareServiceInstance` (spec §4.1) — the
semantics of `new ecs.FargateService(...)` is not in the repository.
Fails with `TopologyConfigError` when any handle dangles or when
`assignPublicAddress` is true and the supplied partition's reachability class
is not `externallyReachable`. -/
def declareServiceInstance (st : BuilderState)
    (compute template filter partition : Nat) (assignPublicAddress : Bool) :
    Except TopologyError (Nat × BuilderState) :=
  if st.finalized then .error .stateError
  else if isComputeCluster st.nodes compute = false then .error .configError
  else if isTaskTemplate st.nodes template = false then .error .configError
  else if isFilter st.nodes filter = false then .error .configError
  else if (partitionClass st.nodes partition).isSome = false then .error .configError
  else if assignPublicAddress = true ∧
      partitionClass st.nodes partition ≠ some .externallyReachable then .error .configError
  else .ok (st.nextId,
    pushNode st (.serviceInstance compute template filter partition assignPublicAddress)
      [compute, template, filter, partition])

/-- Modelled from the spec: `declareDistributor` (spec §4.1) — the semantics
of `new elb.ApplicationLoadBalancer(...)` is not in the repository. -/
def declareDistributor (st : BuilderState) (fabric : Nat) (internetFacing : Bool) :
    Except TopologyError (Nat × BuilderState) :=
  if st.finalized then .error .stateError
  else if isFabric st.nodes fabric = false then .error .configError
  else .ok (st.nextId, pushNode st (.trafficDistributor fabric internetFacing) [fabric])

/-- Modelled from the spec: `addListener` (spec §4.1) — the semantics of
`loadBalancer.addListener(...)` is not in the repository. -/
def addListener (st : BuilderState) (distributor port : Nat) (protocol : String) :
    Except TopologyError (Nat × BuilderState) :=
  if st.finalized then .error .stateError
  else if isDistributor st.nodes distributor = false then .error .configError
  else .ok (st.nextId, pushNode st (.listener distributor port protocol) [distributor])

/-- Modelled from the spec: `addTargets` (spec §4.1) — the semantics of
`loadBalancerListener.addTargets(...)` is not in the repository.  Appends;
duplicate targets are permitted. -/
def addTargets (st : BuilderState) (target : Nat) (tgts : List Nat) :
    Except TopologyError BuilderState :=
  if st.finalized then .error .stateError
  else if isListener st.nodes target = false then .error .configError
  else if tgts.all (fun t => isServiceInstance st.nodes t) = false then .error .configError
  else .ok { st with targets := st.targets ++ tgts.map (fun t => (target, t)) }

/-- Modelled from the spec: `addIngressRule` (spec §4.1) — the semantics of
`securityGroup.addIngressRule(...)` is not in the repository.  Appends one
rule; fails with `TopologyConfigError` when `sourceFilter` is not a declared
TrafficFilter of the graph. -/
def addIngressRule (st : BuilderState) (filter sourceFilter : Nat) (protocol : String)
    (port : Nat) (description : String) : Except TopologyError BuilderState :=
  if st.finalized then .error .stateError
  else if isFilter st.nodes sourceFilter = false then .error .configError
  else .ok { st with
    ingressRules := st.ingressRules ++ [⟨filter, sourceFilter, protocol, port, description⟩] }

/-- Modelled from the spec: `grantPermission` (spec §4.1) — the semantics of
`taskRole.addToPrincipalPolicy(new iam.PolicyStatement(...))` is not in the
repository.  Fails with `TopologyConfigError` when any resource handle is
absent from the graph; returns a PermissionGrant handle otherwise. -/
def grantPermission (st : BuilderState) (identity : Nat) (actions : List String)
    (resources : List Nat) : Except TopologyError (Nat × BuilderState) :=
  if st.finalized then .error .stateError
  else if isServiceInstance st.nodes identity = false then .error .configError
  else if resources.all (fun r => nodeDeclared st.nodes r) = false then .error .configError
  else .ok (st.nextId,
    pushNode st (.permissionGrant identity actions resources) (identity :: resources))

/-- Modelled from the spec: `addOrderingConstraint` (spec §4.1) — the
semantics of `ecsService.node.addDependency(docDbCluster)` is not in the
repository.  Fails with `TopologyCycleError` when adding the edge would create
a cycle, detected via a reachability check from `after` back to `before` over
the current edge set. -/
def addOrderingConstraint (st : BuilderState) (before after : Nat) :
    Except TopologyError BuilderState :=
  if st.finalized then .error .stateError
  else if nodeDeclared st.nodes before = false then .error .configError
  else if nodeDeclared st.nodes after = false then .error .configError
  else if reachRefl st.edges st.nodes.length after before then .error .cycleError
  else .ok { st with edges := st.edges ++ [(before, after)] }

/-- Modelled from the spec: `finalize` (spec §4.1) — the one-way transition
from `Open` to `Finalized`; every structural invariant is enforced eagerly at
the declaring call, so finalizing an open builder always succeeds. -/
def finalize (st : BuilderState) : Except TopologyError BuilderState :=
  if st.finalized then .error .stateError
  else .ok { st with finalized := true }

/-- One builder operation together with its arguments (handles are node ids). -/
inductive Op where
  | declareNetwork (specs : List PartitionSpec)
  | declareTrafficFilter (owner : String) (fabric : Nat)
  | declareSecret (fields : List (String × String)) (generated : GeneratedFieldSpec)
  | declareStatefulCluster (fabric partition filter secret : Nat)
      (instanceClass : String) (instanceCount : Nat)
  | declareComputeCluster (fabric : Nat)
  | declareTaskTemplate (image : String) (cpu memoryMiB : Nat) (ports : List Nat)
      (secretEnvBindings : List EnvBinding)
  | declareServiceInstance (compute template filter partition : Nat)
      (assignPublicAddress : Bool)
  | declareDistributor (fabric : Nat) (internetFacing : Bool)
  | addListener (distributor port : Nat) (protocol : String)
  | addTargets (target : Nat) (tgts : List Nat)
  | addIngressRule (filter sourceFilter : Nat) (protocol : String) (port : Nat)
      (description : String)
  | grantPermission (identity : Nat) (actions : List String) (resources : List Nat)
  | addOrderingConstraint (before after : Nat)
  | finalize
deriving DecidableEq

/-- Apply one operation to the builder state, dropping the returned handle
(handles are deterministic: each declaring call returns `st.nextId`). -/
def apply (op : Op) (st : BuilderState) : Except TopologyError BuilderState :=
  match op with
  | .declareNetwork specs => (declareNetwork st specs).map (fun r => r.2)
  | .declareTrafficFilter owner fabric =>
    (declareTrafficFilter st owner fabric).map (fun r => r.2)
  | .declareSecret fields generated => (declareSecret st fields generated).map (fun r => r.2)
  | .declareStatefulCluster f p fl s ic cnt =>
    (declareStatefulCluster st f p fl s ic cnt).map (fun r => r.2)
  | .declareComputeCluster fabric => (declareComputeCluster st fabric).map (fun r => r.2)
  | .declareTaskTemplate img cpu mem ports binds =>
    (declareTaskTemplate st img cpu mem ports binds).map (fun r => r.2)
  | .declareServiceInstance cc tt fl p pub =>
    (declareServiceInstance st cc tt fl p pub).map (fun r => r.2)
  | .declareDistributor fabric facing =>
    (declareDistributor st fabric facing).map (fun r => r.2)
  | .addListener d port proto => (addListener st d port proto).map (fun r => r.2)
  | .addTargets t tgts => addTargets st t tgts
  | .addIngressRule f s proto port d => addIngressRule st f s proto port d
  | .grantPermission idty acts res => (grantPermission st idty acts res).map (fun r => r.2)
  | .addOrderingConstraint b a => addOrderingConstraint st b a
  | .finalize => finalize st

/-- Apply a sequence of operations left to right, stopping at the first
error. -/
def applyAll (st : BuilderState) (ops : List Op) : Except TopologyError BuilderState :=
  match ops with
  | [] => .ok st
  | op :: rest =>
    match apply op st with
    | .ok st' => applyAll st' rest
    | .error e => .error e

/-- The empty open builder. -/
def emptyState : BuilderState :=
  { finalized := false, nextId := 0, nodes := [], edges := [], ingressRules := [], targets := [] }

/-- A builder state is reachable when some operation sequence produces it from
the empty open builder. -/
def Reachable (st : BuilderState) : Prop :=
  ∃ ops : List Op, applyAll emptyState ops = .ok st

/-- The construction sequence of `src/lib/aws-cdk-docdb-stack.ts`, operation
by operation and in source order.  Node ids: 0 VPC fabric, 1 public partition,
2 private partition, 3 DocumentDB security group, 4 DocumentDB credentials
secret, 5 DocumentDB cluster, 6 ECS security group, 7 ECS cluster, 8 payload
secret, 9 task template, 10 ECS service, 11 load balancer, 12 listener,
13 permission grant. -/
def stackOps : List Op :=
  [ .declareNetwork
      [ ⟨"public", 24, .externallyReachable⟩, ⟨"private", 24, .isolated⟩ ],
    .declareTrafficFilter "DocumentDB Security Group" 0,
    .declareSecret [("username", "awsdemo")] ⟨"password", 16, "/¥\x27%:;\x7B\x7D"⟩,
    .declareStatefulCluster 0 2 3 4 "t3.medium" 1,
    .declareTrafficFilter "ECSSecurityGroup" 0,
    .declareComputeCluster 0,
    .declareSecret [] ⟨"payloadSecret", 32, "\x22@/\\ "⟩,
    .declareTaskTemplate "amazon/amazon-ecs-sample" 256 512 [80]
      [ ⟨"DOCDB_USERNAME", 4, "username"⟩,
        ⟨"DOCDB_PASSWORD", 4, "password"⟩,
        ⟨"PAYLOAD_SECRET", 8, "payloadSecret"⟩ ],
    .declareServiceInstance 7 9 6 1 true,
    .declareDistributor 0 true,
    .addListener 11 80 "HTTP",
    .addTargets 12 [10],
    .addIngressRule 3 6 "tcp" 27017 "Allow MongoDB traffic from ECS",
    .grantPermission 10 ["secretsmanager:GetSecretValue"] [4],
    .addOrderingConstraint 5 10,
    .finalize ]

/-- The builder state after the whole source sequence including `finalize`. -/
def stackFinal : BuilderState :=
  ((applyAll emptyState stackOps).toOption).getD emptyState

/-- The builder state after the declaration part of the source sequence,
still open (everything up to and excluding `finalize`). -/
def stackOpen : BuilderState :=
  ((applyAll emptyState (stackOps.take 15)).toOption).getD emptyState

theorem stackFinal_ok : applyAll emptyState stackOps = .ok stackFinal := by rfl

theorem stackOpen_ok : applyAll emptyState (stackOps.take 15) = .ok stackOpen := by rfl

theorem stackOpen_finalized : stackOpen.finalized = false := by rfl

theorem stackFinal_finalized : stackFinal.finalized = true := by rfl

/-! ### Dependency-graph theory: edge relation, cycles, reachability, sorting -/

/-- The one-step edge relation of an edge list. -/
def EdgeRel (E : List (Nat × Nat)) : Nat → Nat → Prop :=
  fun u v => (u, v) ∈ E

/-- The edge list contains a (directed, nonempty) cycle. -/
def HasCycle (E : List (Nat × Nat)) : Prop :=
  ∃ n, Relation.TransGen (EdgeRel E) n n

theorem transGen_rank_lt {E : List (Nat × Nat)} {rank : Nat → Nat}
    (hrank : ∀ e ∈ E, rank e.1 < rank e.2) {u v : Nat}
    (h : Relation.TransGen (EdgeRel E) u v) : rank u < rank v := by
  induction h with
  | single h1 => exact hrank _ h1
  | tail _ h2 ih => exact lt_trans ih (hrank _ h2)

/-- A graph whose edges all increase some rank function is acyclic. -/
theorem ranked_acyclic {E : List (Nat × Nat)}
    (h : ∃ rank : Nat → Nat, ∀ e ∈ E, rank e.1 < rank e.2) : ¬ HasCycle E := by
  rintro ⟨n, hn⟩
  obtain ⟨rank, hrank⟩ := h
  exact lt_irrefl _ (transGen_rank_lt hrank hn)

theorem reachRefl_sound {E : List (Nat × Nat)} :
    ∀ {fuel u v}, reachRefl E fuel u v = true → Relation.ReflTransGen (EdgeRel E) u v := by
  intro fuel
  induction fuel with
  | zero =>
    intro u v h
    simp only [reachRefl, beq_iff_eq] at h
    subst h
    exact Relation.ReflTransGen.refl
  | succ f ih =>
    intro u v h
    simp only [reachRefl, Bool.or_eq_true, beq_iff_eq, List.any_eq_true,
      Bool.and_eq_true] at h
    rcases h with h | ⟨e, he, h1, h2⟩
    · subst h; exact Relation.ReflTransGen.refl
    · refine Relation.ReflTransGen.head ?_ (ih h2)
      show (u, e.2) ∈ E
      have : e = (u, e.2) := by
        obtain ⟨x, y⟩ := e
        simp at h1
        simp [h1]
      exact this ▸ he

theorem chain_mem_ids {E : List (Nat × Nat)} {ids : List Nat}
    (hmem : ∀ e ∈ E, e.1 ∈ ids ∧ e.2 ∈ ids) :
    ∀ {l u}, List.Chain (EdgeRel E) u l → u ∈ ids → ∀ x ∈ u :: l, x ∈ ids := by
  intro l
  induction l with
  | nil =>
    intro u _ hu x hx
    simp at hx
    subst hx
    exact hu
  | cons c l' ih =>
    intro u hch hu x hx
    obtain ⟨h1, h2⟩ := List.chain_cons.mp hch
    rcases List.mem_cons.mp hx with rfl | hx'
    · exact hu
    · exact ih h2 (hmem _ h1).2 x hx'

theorem chain_reachRefl {E : List (Nat × Nat)} :
    ∀ {l u v fuel}, List.Chain (EdgeRel E) u l →
      (u :: l).getLast (List.cons_ne_nil u l) = v → l.length ≤ fuel →
      reachRefl E fuel u v = true := by
  intro l
  induction l with
  | nil =>
    intro u v fuel _ hlast _
    simp at hlast
    subst hlast
    cases fuel with
    | zero => simp [reachRefl]
    | succ f => simp [reachRefl]
  | cons c l' ih =>
    intro u v fuel hch hlast hlen
    obtain ⟨h1, h2⟩ := List.chain_cons.mp hch
    cases fuel with
    | zero => simp at hlen
    | succ f =>
      have hlast' : (c :: l').getLast (List.cons_ne_nil c l') = v := by
        rw [List.getLast_cons (List.cons_ne_nil c l')] at hlast
        exact hlast
      have hr : reachRefl E f c v = true := ih h2 hlast' (by simpa using hlen)
      simp only [reachRefl, Bool.or_eq_true, List.any_eq_true, Bool.and_eq_true]
      exact Or.inr ⟨(u, c), h1, by simp, hr⟩

/-- Completeness of the bounded reachability check: on a rank-increasing edge
set whose endpoints lie in a duplicate-free id list, any reflexive-transitive
reachability fact is detected with fuel at least the number of ids. -/
theorem reachRefl_complete {E : List (Nat × Nat)} {ids : List Nat} {rank : Nat → Nat}
    (hrank : ∀ e ∈ E, rank e.1 < rank e.2)
    (hmem : ∀ e ∈ E, e.1 ∈ ids ∧ e.2 ∈ ids)
    {u v : Nat} (hu : u ∈ ids)
    (h : Relation.ReflTransGen (EdgeRel E) u v) {fuel : Nat} (hfuel : ids.length ≤ fuel) :
    reachRefl E fuel u v = true := by
  obtain ⟨l, hch, hlast⟩ := List.exists_chain_of_relationReflTransGen h
  have hchain' : List.Chain (fun x y => rank x < rank y) u l :=
    List.Chain.imp (fun a b hab => hrank (a, b) hab) hch
  haveI : IsTrans Nat (fun x y => rank x < rank y) := ⟨fun a b c h1 h2 => lt_trans h1 h2⟩
  have hpw : List.Pairwise (fun x y => rank x < rank y) (u :: l) :=
    List.chain_iff_pairwise.mp hchain'
  have hnd : (u :: l).Nodup := hpw.imp (fun hab heq => by subst heq; exact lt_irrefl _ hab)
  have hsub : ∀ x ∈ u :: l, x ∈ ids := chain_mem_ids hmem hch hu
  have hlen : (u :: l).length ≤ ids.length :=
    (List.Nodup.subperm hnd (fun x hx => hsub x hx)).length_le
  have : l.length ≤ fuel := by simp at hlen; omega
  exact chain_reachRefl hch hlast this

theorem edgeRel_append {E : List (Nat × Nat)} {b a u v : Nat} :
    EdgeRel (E ++ [(b, a)]) u v ↔ EdgeRel E u v ∨ (u = b ∧ v = a) := by
  simp [EdgeRel, Prod.ext_iff]

/-- Any transitive path over the edge set extended by `(b, a)` either lives
in the original edge set or splits at the new edge. -/
theorem transGen_append_case {E : List (Nat × Nat)} {b a u v : Nat}
    (h : Relation.TransGen (EdgeRel (E ++ [(b, a)])) u v) :
    Relation.TransGen (EdgeRel E) u v ∨
      (Relation.ReflTransGen (EdgeRel E) u b ∧ Relation.ReflTransGen (EdgeRel E) a v) := by
  induction h with
  | single h1 =>
    rcases edgeRel_append.mp h1 with h' | ⟨rfl, rfl⟩
    · exact Or.inl (Relation.TransGen.single h')
    · exact Or.inr ⟨Relation.ReflTransGen.refl, Relation.ReflTransGen.refl⟩
  | tail _ h2 ih =>
    rcases edgeRel_append.mp h2 with h2' | ⟨rfl, rfl⟩
    · rcases ih with ih' | ⟨ih1, ih2⟩
      · exact Or.inl (ih'.tail h2')
      · exact Or.inr ⟨ih1, ih2.tail h2'⟩
    · rcases ih with ih' | ⟨ih1, _⟩
      · exact Or.inr ⟨ih'.to_reflTransGen, Relation.ReflTransGen.refl⟩
      · exact Or.inr ⟨ih1, Relation.ReflTransGen.refl⟩

/-- On an acyclic edge set, adding the edge `(b, a)` creates a cycle exactly
when `a` already reaches `b`. -/
theorem hasCycle_append_iff {E : List (Nat × Nat)} {b a : Nat} (hacyc : ¬ HasCycle E) :
    HasCycle (E ++ [(b, a)]) ↔ Relation.ReflTransGen (EdgeRel E) a b := by
  constructor
  · rintro ⟨n, hn⟩
    rcases transGen_append_case hn with h | ⟨h1, h2⟩
    · exact absurd ⟨n, h⟩ hacyc
    · exact h2.trans h1
  · intro h
    refine ⟨b, ?_⟩
    have hb : EdgeRel (E ++ [(b, a)]) b a := edgeRel_append.mpr (Or.inr ⟨rfl, rfl⟩)
    have h' : Relation.ReflTransGen (EdgeRel (E ++ [(b, a)])) a b :=
      h.mono (fun x y hxy => edgeRel_append.mpr (Or.inl hxy))
    exact Relation.TransGen.head' hb h'

/-- Kahn-style topological sorting: repeatedly extract a node with no
incoming edge from the remaining set. -/
def kahnAux (E : List (Nat × Nat)) : Nat → List Nat → Option (List Nat)
  | _, [] => some []
  | 0, _ :: _ => none
  | fuel + 1, x :: xs =>
    match (x :: xs).find? (fun v => !(E.any (fun e => e.2 == v && (x :: xs).contains e.1))) with
    | none => none
    | some v => (kahnAux E fuel ((x :: xs).erase v)).map (fun order => v :: order)

/-- Topologically sort the resource graph of a builder state. -/
def topoSort (st : BuilderState) : Option (List Nat) :=
  kahnAux st.edges st.nodes.length (nodeIds st.nodes)

/-- On a rank-increasing edge set, the Kahn extraction never gets stuck. -/
theorem kahnAux_isSome {E : List (Nat × Nat)} {rank : Nat → Nat}
    (hrank : ∀ e ∈ E, rank e.1 < rank e.2) :
    ∀ (fuel : Nat) (rem : List Nat), rem.length ≤ fuel →
      (kahnAux E fuel rem).isSome = true := by
  intro fuel
  induction fuel with
  | zero =>
    intro rem h
    cases rem with
    | nil => simp [kahnAux]
    | cons x xs => simp at h
  | succ f ih =>
    intro rem hlen
    cases rem with
    | nil => simp [kahnAux]
    | cons x xs =>
      have hex : ∃ v ∈ x :: xs,
          (!(E.any (fun e => e.2 == v && (x :: xs).contains e.1))) = true := by
        cases hm : (x :: xs).argmin rank with
        | none => exact absurd (List.argmin_eq_none.mp hm) (List.cons_ne_nil x xs)
        | some m =>
          refine ⟨m, List.argmin_mem hm, ?_⟩
          simp only [Bool.not_eq_true', List.any_eq_false]
          intro e he hcon
          rw [Bool.and_eq_true, beq_iff_eq] at hcon
          obtain ⟨h2, h1⟩ := hcon
          have h1' : e.1 ∈ x :: xs := by simpa using h1
          have hle : rank m ≤ rank e.1 := List.le_of_mem_argmin h1' hm
          have hlt : rank e.1 < rank e.2 := hrank e he
          rw [h2] at hlt
          omega
      have hfind : ((x :: xs).find?
          (fun v => !(E.any (fun e => e.2 == v && (x :: xs).contains e.1)))).isSome = true :=
        List.find?_isSome.mpr hex
      obtain ⟨v, hv⟩ := Option.isSome_iff_exists.mp hfind
      have hvm : v ∈ x :: xs := List.mem_of_find?_eq_some hv
      have hrec : ((x :: xs).erase v).length ≤ f := by
        rw [List.length_erase_of_mem hvm]
        simp only [List.length_cons] at hlen ⊢
        omega
      simp only [kahnAux, hv]
      simpa using ih ((x :: xs).erase v) hrec

/-! ### Builder-state invariant -/

theorem bool_ne_false {b : Bool} (h : ¬ b = false) : b = true := by
  cases b
  · exact absurd rfl h
  · rfl

theorem nodeIds_pushNode (st : BuilderState) (p : NodePayload) (deps : List Nat) :
    nodeIds (pushNode st p deps).nodes = nodeIds st.nodes ++ [st.nextId] := by
  simp [pushNode, nodeIds]

theorem mem_nodeIds_iff_lookup {nodes : List TopoNode} {i : Nat} :
    i ∈ nodeIds nodes ↔ (lookupNode nodes i).isSome = true := by
  unfold nodeIds lookupNode
  constructor
  · intro h
    obtain ⟨n, hn, h2⟩ := List.mem_map.mp h
    have : (List.find? (fun n => n.id == i) nodes).isSome = true :=
      List.find?_isSome.mpr ⟨n, hn, by simp [h2]⟩
    obtain ⟨m, hm⟩ := Option.isSome_iff_exists.mp this
    simp [hm]
  · intro h
    cases hf : nodes.find? (fun n => n.id == i) with
    | none => rw [hf] at h; exact absurd h (by simp)
    | some n =>
      have hn : n ∈ nodes := List.mem_of_find?_eq_some hf
      have hp := List.find?_some hf
      exact List.mem_map.mpr ⟨n, hn, by simpa using hp⟩

theorem lookup_append_of_ne {nodes : List TopoNode} {i j : Nat} (p : NodePayload)
    (h : i ≠ j) : lookupNode (nodes ++ [⟨j, p⟩]) i = lookupNode nodes i := by
  unfold lookupNode
  rw [List.find?_append]
  cases hf : nodes.find? (fun n => n.id == i) with
  | some n => simp [Option.or]
  | none =>
    have : (List.find? (fun n => n.id == i) [(⟨j, p⟩ : TopoNode)]) = none := by
      have hji : (j == i) = false := by simp [Ne.symm h]
      simp [List.find?, hji]
    simp [Option.or, this]

theorem lookup_pushNode_of_ne (st : BuilderState) (p : NodePayload) (deps : List Nat)
    {i : Nat} (h : i ≠ st.nextId) :
    lookupNode (pushNode st p deps).nodes i = lookupNode st.nodes i :=
  lookup_append_of_ne p h

theorem lookup_pushNode_self (st : BuilderState) (p : NodePayload) (deps : List Nat)
    (hids : nodeIds st.nodes = List.range st.nextId) :
    lookupNode (pushNode st p deps).nodes st.nextId = some p := by
  have hnone : st.nodes.find? (fun n => n.id == st.nextId) = none := by
    rw [List.find?_eq_none]
    intro n hn
    have : n.id ∈ nodeIds st.nodes := List.mem_map_of_mem _ hn
    rw [hids, List.mem_range] at this
    simp
    omega
  show lookupNode (st.nodes ++ [⟨st.nextId, p⟩]) st.nextId = some p
  unfold lookupNode
  rw [List.find?_append, hnone]
  simp [Option.or, List.find?]

theorem lookup_isSome_lt {st : BuilderState} {i : Nat}
    (hids : nodeIds st.nodes = List.range st.nextId)
    (h : (lookupNode st.nodes i).isSome = true) : i < st.nextId := by
  have := mem_nodeIds_iff_lookup.mpr h
  rw [hids, List.mem_range] at this
  exact this

theorem payloadTest_isSome {nodes : List TopoNode} {i : Nat} {q : NodePayload → Bool}
    (h : payloadTest nodes i q = true) : (lookupNode nodes i).isSome = true := by
  unfold payloadTest at h
  cases hl : lookupNode nodes i with
  | none => rw [hl] at h; exact absurd h (by simp)
  | some p => simp

theorem mem_of_payloadTest {nodes : List TopoNode} {i : Nat} {q : NodePayload → Bool}
    (h : payloadTest nodes i q = true) : i ∈ nodeIds nodes :=
  mem_nodeIds_iff_lookup.mpr (payloadTest_isSome h)

theorem mem_of_nodeDeclared {nodes : List TopoNode} {i : Nat}
    (h : nodeDeclared nodes i = true) : i ∈ nodeIds nodes :=
  mem_nodeIds_iff_lookup.mpr h

theorem partitionClass_isSome {nodes : List TopoNode} {i : Nat} {c : ReachabilityClass}
    (h : partitionClass nodes i = some c) : (lookupNode nodes i).isSome = true := by
  unfold partitionClass at h
  split at h
  · simp_all
  · exact absurd h (by simp)

theorem mem_of_partitionClass {nodes : List TopoNode} {i : Nat} {c : ReachabilityClass}
    (h : partitionClass nodes i = some c) : i ∈ nodeIds nodes :=
  mem_nodeIds_iff_lookup.mpr (partitionClass_isSome h)

theorem payloadTest_pushNode {st : BuilderState} {i : Nat} {q : NodePayload → Bool}
    (hids : nodeIds st.nodes = List.range st.nextId)
    (h : payloadTest st.nodes i q = true) (p : NodePayload) (deps : List Nat) :
    payloadTest (pushNode st p deps).nodes i q = true := by
  have hne : i ≠ st.nextId := by
    have := lookup_isSome_lt hids (payloadTest_isSome h)
    omega
  unfold payloadTest at h ⊢
  rw [lookup_pushNode_of_ne st p deps hne]
  exact h

theorem nodeDeclared_pushNode {st : BuilderState} {i : Nat}
    (hids : nodeIds st.nodes = List.range st.nextId)
    (h : nodeDeclared st.nodes i = true) (p : NodePayload) (deps : List Nat) :
    nodeDeclared (pushNode st p deps).nodes i = true := by
  have hne : i ≠ st.nextId := by
    have := lookup_isSome_lt hids h
    omega
  unfold nodeDeclared at h ⊢
  rw [lookup_pushNode_of_ne st p deps hne]
  exact h

theorem partitionClass_pushNode {st : BuilderState} {i : Nat} {c : ReachabilityClass}
    (hids : nodeIds st.nodes = List.range st.nextId)
    (h : partitionClass st.nodes i = some c) (p : NodePayload) (deps : List Nat) :
    partitionClass (pushNode st p deps).nodes i = some c := by
  have hne : i ≠ st.nextId := by
    have := lookup_isSome_lt hids (partitionClass_isSome h)
    omega
  unfold partitionClass at h ⊢
  rw [lookup_pushNode_of_ne st p deps hne]
  exact h

/-- Every cross-reference held by a node payload is a valid typed handle:
it resolves to an already-declared node of the required kind, and the
partition-class constraints of the stateful cluster and of a publicly
addressed service instance hold. -/
def payloadOk (nodes : List TopoNode) : NodePayload → Prop
  | .networkFabric => True
  | .addressPartition fabric _ => isFabric nodes fabric = true
  | .trafficFilter _ fabric => isFabric nodes fabric = true
  | .secretMaterial _ _ => True
  | .statefulServiceCluster fabric partition filter secret _ _ =>
      isFabric nodes fabric = true ∧ partitionClass nodes partition = some .isolated ∧
      isFilter nodes filter = true ∧ isSecret nodes secret = true
  | .computeCluster fabric => isFabric nodes fabric = true
  | .taskTemplate _ _ _ _ binds => ∀ b ∈ binds, isSecret nodes b.secret = true
  | .serviceInstance cc tt fl p pub =>
      isComputeCluster nodes cc = true ∧ isTaskTemplate nodes tt = true ∧
      isFilter nodes fl = true ∧ (partitionClass nodes p).isSome = true ∧
      (pub = true → partitionClass nodes p = some .externallyReachable)
  | .trafficDistributor fabric _ => isFabric nodes fabric = true
  | .listener d _ _ => isDistributor nodes d = true
  | .permissionGrant idty _ res =>
      isServiceInstance nodes idty = true ∧ ∀ r ∈ res, nodeDeclared nodes r = true

theorem payloadOk_pushNode {st : BuilderState}
    (hids : nodeIds st.nodes = List.range st.nextId) {q : NodePayload}
    (h : payloadOk st.nodes q) (p : NodePayload) (deps : List Nat) :
    payloadOk (pushNode st p deps).nodes q := by
  cases q with
  | networkFabric => trivial
  | addressPartition f s => exact payloadTest_pushNode hids h p deps
  | trafficFilter o f => exact payloadTest_pushNode hids h p deps
  | secretMaterial fs g => trivial
  | statefulServiceCluster f pa fl s ic cnt =>
    obtain ⟨h1, h2, h3, h4⟩ := h
    exact ⟨payloadTest_pushNode hids h1 p deps, partitionClass_pushNode hids h2 p deps,
      payloadTest_pushNode hids h3 p deps, payloadTest_pushNode hids h4 p deps⟩
  | computeCluster f => exact payloadTest_pushNode hids h p deps
  | taskTemplate img cpu mem ports binds =>
    intro b hb
    exact payloadTest_pushNode hids (h b hb) p deps
  | serviceInstance cc tt fl pa pub =>
    obtain ⟨h1, h2, h3, h4, h5⟩ := h
    obtain ⟨c, hc⟩ := Option.isSome_iff_exists.mp h4
    refine ⟨payloadTest_pushNode hids h1 p deps, payloadTest_pushNode hids h2 p deps,
      payloadTest_pushNode hids h3 p deps, ?_, ?_⟩
    · rw [partitionClass_pushNode hids hc p deps]
      simp
    · intro hp
      exact partitionClass_pushNode hids (h5 hp) p deps
  | trafficDistributor f fac => exact payloadTest_pushNode hids h p deps
  | listener d po pr => exact payloadTest_pushNode hids h p deps
  | permissionGrant idty acts res =>
    obtain ⟨h1, h2⟩ := h
    exact ⟨payloadTest_pushNode hids h1 p deps,
      fun r hr => nodeDeclared_pushNode hids (h2 r hr) p deps⟩

/-- The reachability invariant of the builder: node ids are exactly
`0 .. nextId - 1` in declaration order, every edge endpoint is a declared
node, the edge set is rank-increasing (hence acyclic and topologically
sortable), and every node payload holds only valid typed handles. -/
structure Inv (st : BuilderState) : Prop where
  ids_range : nodeIds st.nodes = List.range st.nextId
  edges_mem : ∀ e ∈ st.edges, e.1 ∈ nodeIds st.nodes ∧ e.2 ∈ nodeIds st.nodes
  ranked : ∃ rank : Nat → Nat, ∀ e ∈ st.edges, rank e.1 < rank e.2
  payloads : ∀ n ∈ st.nodes, payloadOk st.nodes n.payload

theorem le_foldr_max {l : List Nat} {a : Nat} (h : a ∈ l) : a ≤ l.foldr max 0 := by
  induction l with
  | nil => simp at h
  | cons x xs ih =>
    rcases List.mem_cons.mp h with rfl | h'
    · exact le_max_left _ _
    · exact le_trans (ih h') (le_max_right _ _)

theorem pushNode_inv {st : BuilderState} (h : Inv st) {p : NodePayload} {deps : List Nat}
    (hdeps : ∀ d ∈ deps, d ∈ nodeIds st.nodes)
    (hp : payloadOk st.nodes p) : Inv (pushNode st p deps) := by
  have hlt : ∀ i ∈ nodeIds st.nodes, i < st.nextId := by
    intro i hi
    rw [h.ids_range, List.mem_range] at hi
    exact hi
  refine ⟨?_, ?_, ?_, ?_⟩
  · rw [nodeIds_pushNode, h.ids_range, ← List.range_succ]
    rfl
  · intro e he
    rw [nodeIds_pushNode]
    simp only [pushNode] at he
    rcases List.mem_append.mp he with he' | he'
    · obtain ⟨h1, h2⟩ := h.edges_mem e he'
      exact ⟨List.mem_append_left _ h1, List.mem_append_left _ h2⟩
    · obtain ⟨d, hd, rfl⟩ := List.mem_map.mp he'
      exact ⟨List.mem_append_left _ (hdeps d hd), List.mem_append_right _ (by simp)⟩
  · obtain ⟨rank, hrank⟩ := h.ranked
    refine ⟨fun x => if x = st.nextId then ((nodeIds st.nodes).map rank).foldr max 0 + 1
      else rank x, ?_⟩
    intro e he
    simp only [pushNode] at he
    rcases List.mem_append.mp he with he' | he'
    · obtain ⟨h1, h2⟩ := h.edges_mem e he'
      have hn1 : e.1 ≠ st.nextId := by have := hlt _ h1; omega
      have hn2 : e.2 ≠ st.nextId := by have := hlt _ h2; omega
      simp only [hn1, hn2, if_false]
      exact hrank e he'
    · obtain ⟨d, hd, rfl⟩ := List.mem_map.mp he'
      have hdm : d ∈ nodeIds st.nodes := hdeps d hd
      have hnd : d ≠ st.nextId := by have := hlt _ hdm; omega
      have hle : rank d ≤ ((nodeIds st.nodes).map rank).foldr max 0 :=
        le_foldr_max (List.mem_map_of_mem rank hdm)
      simp [hnd]
      omega
  · intro n hn
    simp only [pushNode] at hn
    rcases List.mem_append.mp hn with hn' | hn'
    · exact payloadOk_pushNode h.ids_range (h.payloads n hn') p deps
    · have : n = ⟨st.nextId, p⟩ := by simpa using hn'
      subst this
      exact payloadOk_pushNode h.ids_range hp p deps

/-! ### Invariant preservation by each operation -/

theorem addPartitions_inv {fid : Nat} :
    ∀ (specs : List PartitionSpec) (st : BuilderState), Inv st →
      isFabric st.nodes fid = true → Inv (addPartitions fid specs st) := by
  intro specs
  induction specs with
  | nil => intro st h _; exact h
  | cons s rest ih =>
    intro st h hf
    have hmem : fid ∈ nodeIds st.nodes := mem_of_payloadTest hf
    have h' : Inv (pushNode st (.addressPartition fid s) [fid]) :=
      pushNode_inv h (fun d hd => by simp at hd; subst hd; exact hmem) hf
    have hf' : isFabric (pushNode st (.addressPartition fid s) [fid]).nodes fid = true :=
      payloadTest_pushNode h.ids_range hf _ _
    exact ih _ h' hf'

theorem declareNetwork_inv {st : BuilderState} {specs : List PartitionSpec}
    {hdl : Nat} {st' : BuilderState} (h : Inv st)
    (hok : declareNetwork st specs = .ok (hdl, st')) : Inv st' := by
  unfold declareNetwork at hok
  split at hok
  next => exact absurd hok (by simp)
  next =>
    split at hok
    next => exact absurd hok (by simp)
    next =>
      split at hok
      next => exact absurd hok (by simp)
      next =>
        split at hok
        next => exact absurd hok (by simp)
        next =>
          simp only [Except.ok.injEq, Prod.mk.injEq] at hok
          obtain ⟨_, rfl⟩ := hok
          have h1 : Inv (pushNode st .networkFabric []) :=
            pushNode_inv h (fun d hd => by simp at hd) trivial
          have h2 : isFabric (pushNode st .networkFabric []).nodes st.nextId = true := by
            unfold isFabric payloadTest
            rw [lookup_pushNode_self st _ _ h.ids_range]
          exact addPartitions_inv specs _ h1 h2

theorem declareTrafficFilter_inv {st : BuilderState} {o : String} {f hdl : Nat}
    {st' : BuilderState} (h : Inv st)
    (hok : declareTrafficFilter st o f = .ok (hdl, st')) : Inv st' := by
  unfold declareTrafficFilter at hok
  split at hok
  next => exact absurd hok (by simp)
  next =>
    split at hok
    next => exact absurd hok (by simp)
    next hf =>
      have hf' : isFabric st.nodes f = true := bool_ne_false hf
      simp only [Except.ok.injEq, Prod.mk.injEq] at hok
      obtain ⟨_, rfl⟩ := hok
      exact pushNode_inv h
        (fun d hd => by simp at hd; subst hd; exact mem_of_payloadTest hf') hf'

theorem declareSecret_inv {st : BuilderState} {fields : List (String × String)}
    {g : GeneratedFieldSpec} {hdl : Nat} {st' : BuilderState} (h : Inv st)
    (hok : declareSecret st fields g = .ok (hdl, st')) : Inv st' := by
  unfold declareSecret at hok
  split at hok
  next => exact absurd hok (by simp)
  next =>
    simp only [Except.ok.injEq, Prod.mk.injEq] at hok
    obtain ⟨_, rfl⟩ := hok
    exact pushNode_inv h (fun d hd => by simp at hd) trivial

theorem declareStatefulCluster_inv {st : BuilderState} {f p fl s : Nat}
    {ic : String} {cnt : Nat} {hdl : Nat} {st' : BuilderState} (h : Inv st)
    (hok : declareStatefulCluster st f p fl s ic cnt = .ok (hdl, st')) : Inv st' := by
  unfold declareStatefulCluster at hok
  split at hok
  next => exact absurd hok (by simp)
  next =>
    split at hok
    next => exact absurd hok (by simp)
    next hf =>
      split at hok
      next => exact absurd hok (by simp)
      next hp =>
        split at hok
        next => exact absurd hok (by simp)
        next hfl =>
          split at hok
          next => exact absurd hok (by simp)
          next hs =>
            have hf' : isFabric st.nodes f = true := bool_ne_false hf
            have hp' : partitionClass st.nodes p = some .isolated := not_not.mp hp
            have hfl' : isFilter st.nodes fl = true := bool_ne_false hfl
            have hs' : isSecret st.nodes s = true := bool_ne_false hs
            simp only [Except.ok.injEq, Prod.mk.injEq] at hok
            obtain ⟨_, rfl⟩ := hok
            refine pushNode_inv h ?_ ⟨hf', hp', hfl', hs'⟩
            intro d hd
            simp at hd
            rcases hd with rfl | rfl | rfl | rfl
            · exact mem_of_payloadTest hf'
            · exact mem_of_partitionClass hp'
            · exact mem_of_payloadTest hfl'
            · exact mem_of_payloadTest hs'

theorem declareComputeCluster_inv {st : BuilderState} {f hdl : Nat}
    {st' : BuilderState} (h : Inv st)
    (hok : declareComputeCluster st f = .ok (hdl, st')) : Inv st' := by
  unfold declareComputeCluster at hok
  split at hok
  next => exact absurd hok (by simp)
  next =>
    split at hok
    next => exact absurd hok (by simp)
    next hf =>
      have hf' : isFabric st.nodes f = true := bool_ne_false hf
      simp only [Except.ok.injEq, Prod.mk.injEq] at hok
      obtain ⟨_, rfl⟩ := hok
      exact pushNode_inv h
        (fun d hd => by simp at hd; subst hd; exact mem_of_payloadTest hf') hf'

theorem declareTaskTemplate_inv {st : BuilderState} {img : String} {cpu mem : Nat}
    {ports : List Nat} {binds : List EnvBinding} {hdl : Nat} {st' : BuilderState}
    (h : Inv st)
    (hok : declareTaskTemplate st img cpu mem ports binds = .ok (hdl, st')) : Inv st' := by
  unfold declareTaskTemplate at hok
  split at hok
  next => exact absurd hok (by simp)
  next =>
    split at hok
    next => exact absurd hok (by simp)
    next hb =>
      have hb' : ∀ b ∈ binds, isSecret st.nodes b.secret = true :=
        List.all_eq_true.mp (bool_ne_false hb)
      simp only [Except.ok.injEq, Prod.mk.injEq] at hok
      obtain ⟨_, rfl⟩ := hok
      refine pushNode_inv h ?_ hb'
      intro d hd
      obtain ⟨b, hbm, rfl⟩ := List.mem_map.mp hd
      exact mem_of_payloadTest (hb' b hbm)

theorem declareServiceInstance_inv {st : BuilderState} {cc tt fl p : Nat} {pub : Bool}
    {hdl : Nat} {st' : BuilderState} (h : Inv st)
    (hok : declareServiceInstance st cc tt fl p pub = .ok (hdl, st')) : Inv st' := by
  unfold declareServiceInstance at hok
  split at hok
  next => exact absurd hok (by simp)
  next =>
    split at hok
    next => exact absurd hok (by simp)
    next hcc =>
      split at hok
      next => exact absurd hok (by simp)
      next htt =>
        split at hok
        next => exact absurd hok (by simp)
        next hfl =>
          split at hok
          next => exact absurd hok (by simp)
          next hp =>
            split at hok
            next => exact absurd hok (by simp)
            next hpub =>
              have hcc' : isComputeCluster st.nodes cc = true := bool_ne_false hcc
              have htt' : isTaskTemplate st.nodes tt = true := bool_ne_false htt
              have hfl' : isFilter st.nodes fl = true := bool_ne_false hfl
              have hp' : (partitionClass st.nodes p).isSome = true := bool_ne_false hp
              have hpub' : pub = true → partitionClass st.nodes p = some .externallyReachable := by
                intro hx
                by_contra hy
                exact hpub ⟨hx, hy⟩
              simp only [Except.ok.injEq, Prod.mk.injEq] at hok
              obtain ⟨_, rfl⟩ := hok
              refine pushNode_inv h ?_ ⟨hcc', htt', hfl', hp', hpub'⟩
              intro d hd
              simp at hd
              obtain ⟨c, hc⟩ := Option.isSome_iff_exists.mp hp'
              rcases hd with rfl | rfl | rfl | rfl
              · exact mem_of_payloadTest hcc'
              · exact mem_of_payloadTest htt'
              · exact mem_of_payloadTest hfl'
              · exact mem_of_partitionClass hc

theorem declareDistributor_inv {st : BuilderState} {f : Nat} {facing : Bool}
    {hdl : Nat} {st' : BuilderState} (h : Inv st)
    (hok : declareDistributor st f facing = .ok (hdl, st')) : Inv st' := by
  unfold declareDistributor at hok
  split at hok
  next => exact absurd hok (by simp)
  next =>
    split at hok
    next => exact absurd hok (by simp)
    next hf =>
      have hf' : isFabric st.nodes f = true := bool_ne_false hf
      simp only [Except.ok.injEq, Prod.mk.injEq] at hok
      obtain ⟨_, rfl⟩ := hok
      exact pushNode_inv h
        (fun d hd => by simp at hd; subst hd; exact mem_of_payloadTest hf') hf'

theorem addListener_inv {st : BuilderState} {d po : Nat} {proto : String}
    {hdl : Nat} {st' : BuilderState} (h : Inv st)
    (hok : addListener st d po proto = .ok (hdl, st')) : Inv st' := by
  unfold addListener at hok
  split at hok
  next => exact absurd hok (by simp)
  next =>
    split at hok
    next => exact absurd hok (by simp)
    next hd =>
      have hd' : isDistributor st.nodes d = true := bool_ne_false hd
      simp only [Except.ok.injEq, Prod.mk.injEq] at hok
      obtain ⟨_, rfl⟩ := hok
      exact pushNode_inv h
        (fun x hx => by simp at hx; subst hx; exact mem_of_payloadTest hd') hd'

theorem addTargets_inv {st : BuilderState} {t : Nat} {tgts : List Nat}
    {st' : BuilderState} (h : Inv st)
    (hok : addTargets st t tgts = .ok st') : Inv st' := by
  unfold addTargets at hok
  split at hok
  next => exact absurd hok (by simp)
  next =>
    split at hok
    next => exact absurd hok (by simp)
    next =>
      split at hok
      next => exact absurd hok (by simp)
      next =>
        simp only [Except.ok.injEq] at hok
        subst hok
        exact ⟨h.ids_range, h.edges_mem, h.ranked, h.payloads⟩

theorem addIngressRule_inv {st : BuilderState} {f s : Nat} {proto : String}
    {po : Nat} {descr : String} {st' : BuilderState} (h : Inv st)
    (hok : addIngressRule st f s proto po descr = .ok st') : Inv st' := by
  unfold addIngressRule at hok
  split at hok
  next => exact absurd hok (by simp)
  next =>
    split at hok
    next => exact absurd hok (by simp)
    next =>
      simp only [Except.ok.injEq] at hok
      subst hok
      exact ⟨h.ids_range, h.edges_mem, h.ranked, h.payloads⟩

theorem grantPermission_inv {st : BuilderState} {idty : Nat} {acts : List String}
    {res : List Nat} {hdl : Nat} {st' : BuilderState} (h : Inv st)
    (hok : grantPermission st idty acts res = .ok (hdl, st')) : Inv st' := by
  unfold grantPermission at hok
  split at hok
  next => exact absurd hok (by simp)
  next =>
    split at hok
    next => exact absurd hok (by simp)
    next hid =>
      split at hok
      next => exact absurd hok (by simp)
      next hres =>
        have hid' : isServiceInstance st.nodes idty = true := bool_ne_false hid
        have hres' : ∀ r ∈ res, nodeDeclared st.nodes r = true :=
          List.all_eq_true.mp (bool_ne_false hres)
        simp only [Except.ok.injEq, Prod.mk.injEq] at hok
        obtain ⟨_, rfl⟩ := hok
        refine pushNode_inv h ?_ ⟨hid', hres'⟩
        intro x hx
        rcases List.mem_cons.mp hx with rfl | hx'
        · exact mem_of_payloadTest hid'
        · exact mem_of_nodeDeclared (hres' x hx')

theorem addOrderingConstraint_inv {st : BuilderState} {b a : Nat} {st' : BuilderState}
    (h : Inv st) (hok : addOrderingConstraint st b a = .ok st') : Inv st' := by
  unfold addOrderingConstraint at hok
  split at hok
  next => exact absurd hok (by simp)
  next =>
    split at hok
    next => exact absurd hok (by simp)
    next hb =>
      split at hok
      next => exact absurd hok (by simp)
      next ha =>
        split at hok
        next => exact absurd hok (by simp)
        next hreach =>
          have hb' : b ∈ nodeIds st.nodes := mem_of_nodeDeclared (bool_ne_false hb)
          have ha' : a ∈ nodeIds st.nodes := mem_of_nodeDeclared (bool_ne_false ha)
          simp only [Except.ok.injEq] at hok
          subst hok
          have hnoRTG : ¬ Relation.ReflTransGen (EdgeRel st.edges) a b := by
            intro hrtg
            obtain ⟨rank, hrank⟩ := h.ranked
            have hlen : (nodeIds st.nodes).length ≤ st.nodes.length := by
              simp [nodeIds]
            exact hreach (reachRefl_complete hrank h.edges_mem ha' hrtg hlen)
          refine ⟨h.ids_range, ?_, ?_, h.payloads⟩
          · intro e he
            rcases List.mem_append.mp he with he' | he'
            · exact h.edges_mem e he'
            · have : e = (b, a) := by simpa using he'
              subst this
              exact ⟨hb', ha'⟩
          · obtain ⟨rank, hrank⟩ := h.ranked
            classical
            refine ⟨fun x => if Relation.ReflTransGen (EdgeRel st.edges) a x
              then rank x + rank b + 1 else rank x, ?_⟩
            intro e he
            rcases List.mem_append.mp he with he' | he'
            · obtain ⟨u, v⟩ := e
              have huv : EdgeRel st.edges u v := he'
              have hrk : rank u < rank v := hrank (u, v) he'
              by_cases h1 : Relation.ReflTransGen (EdgeRel st.edges) a u
              · have h2 : Relation.ReflTransGen (EdgeRel st.edges) a v := h1.tail huv
                simp only [h1, h2, if_pos]
                omega
              · by_cases h2 : Relation.ReflTransGen (EdgeRel st.edges) a v
                · simp only [if_neg h1, if_pos h2]
                  omega
                · simp only [if_neg h1, if_neg h2]
                  exact hrk
            · have : e = (b, a) := by simpa using he'
              subst this
              have h2 : Relation.ReflTransGen (EdgeRel st.edges) a a :=
                Relation.ReflTransGen.refl
              simp only [if_neg hnoRTG, if_pos h2]
              omega

theorem finalize_inv {st st' : BuilderState} (h : Inv st)
    (hok : finalize st = .ok st') : Inv st' := by
  unfold finalize at hok
  split at hok
  next => exact absurd hok (by simp)
  next =>
    simp only [Except.ok.injEq] at hok
    subst hok
    exact ⟨h.ids_range, h.edges_mem, h.ranked, h.payloads⟩

/-- Every successful operation preserves the builder invariant. -/
theorem inv_apply {op : Op} {st st' : BuilderState} (h : Inv st)
    (hok : apply op st = .ok st') : Inv st' := by
  cases op with
  | declareNetwork specs =>
    simp only [apply] at hok
    cases hd : declareNetwork st specs with
    | error e => rw [hd] at hok; exact absurd hok (by simp [Except.map])
    | ok pr =>
      obtain ⟨hdl, st2⟩ := pr
      rw [hd] at hok
      simp only [Except.map, Except.ok.injEq] at hok
      subst hok
      exact declareNetwork_inv h hd
  | declareTrafficFilter o f =>
    simp only [apply] at hok
    cases hd : declareTrafficFilter st o f with
    | error e => rw [hd] at hok; exact absurd hok (by simp [Except.map])
    | ok pr =>
      obtain ⟨hdl, st2⟩ := pr
      rw [hd] at hok
      simp only [Except.map, Except.ok.injEq] at hok
      subst hok
      exact declareTrafficFilter_inv h hd
  | declareSecret fields g =>
    simp only [apply] at hok
    cases hd : declareSecret st fields g with
    | error e => rw [hd] at hok; exact absurd hok (by simp [Except.map])
    | ok pr =>
      obtain ⟨hdl, st2⟩ := pr
      rw [hd] at hok
      simp only [Except.map, Except.ok.injEq] at hok
      subst hok
      exact declareSecret_inv h hd
  | declareStatefulCluster f p fl s ic cnt =>
    simp only [apply] at hok
    cases hd : declareStatefulCluster st f p fl s ic cnt with
    | error e => rw [hd] at hok; exact absurd hok (by simp [Except.map])
    | ok pr =>
      obtain ⟨hdl, st2⟩ := pr
      rw [hd] at hok
      simp only [Except.map, Except.ok.injEq] at hok
      subst hok
      exact declareStatefulCluster_inv h hd
  | declareComputeCluster f =>
    simp only [apply] at hok
    cases hd : declareComputeCluster st f with
    | error e => rw [hd] at hok; exact absurd hok (by simp [Except.map])
    | ok pr =>
      obtain ⟨hdl, st2⟩ := pr
      rw [hd] at hok
      simp only [Except.map, Except.ok.injEq] at hok
      subst hok
      exact declareComputeCluster_inv h hd
  | declareTaskTemplate img cpu mem ports binds =>
    simp only [apply] at hok
    cases hd : declareTaskTemplate st img cpu mem ports binds with
    | error e => rw [hd] at hok; exact absurd hok (by simp [Except.map])
    | ok pr =>
      obtain ⟨hdl, st2⟩ := pr
      rw [hd] at hok
      simp only [Except.map, Except.ok.injEq] at hok
      subst hok
      exact declareTaskTemplate_inv h hd
  | declareServiceInstance cc tt fl p pub =>
    simp only [apply] at hok
    cases hd : declareServiceInstance st cc tt fl p pub with
    | error e => rw [hd] at hok; exact absurd hok (by simp [Except.map])
    | ok pr =>
      obtain ⟨hdl, st2⟩ := pr
      rw [hd] at hok
      simp only [Except.map, Except.ok.injEq] at hok
      subst hok
      exact declareServiceInstance_inv h hd
  | declareDistributor f facing =>
    simp only [apply] at hok
    cases hd : declareDistributor st f facing with
    | error e => rw [hd] at hok; exact absurd hok (by simp [Except.map])
    | ok pr =>
      obtain ⟨hdl, st2⟩ := pr
      rw [hd] at hok
      simp only [Except.map, Except.ok.injEq] at hok
      subst hok
      exact declareDistributor_inv h hd
  | addListener d po proto =>
    simp only [apply] at hok
    cases hd : addListener st d po proto with
    | error e => rw [hd] at hok; exact absurd hok (by simp [Except.map])
    | ok pr =>
      obtain ⟨hdl, st2⟩ := pr
      rw [hd] at hok
      simp only [Except.map, Except.ok.injEq] at hok
      subst hok
      exact addListener_inv h hd
  | addTargets t tgts =>
    simp only [apply] at hok
    exact addTargets_inv h hok
  | addIngressRule f s proto po descr =>
    simp only [apply] at hok
    exact addIngressRule_inv h hok
  | grantPermission idty acts res =>
    simp only [apply] at hok
    cases hd : grantPermission st idty acts res with
    | error e => rw [hd] at hok; exact absurd hok (by simp [Except.map])
    | ok pr =>
      obtain ⟨hdl, st2⟩ := pr
      rw [hd] at hok
      simp only [Except.map, Except.ok.injEq] at hok
      subst hok
      exact grantPermission_inv h hd
  | addOrderingConstraint b a =>
    simp only [apply] at hok
    exact addOrderingConstraint_inv h hok
  | finalize =>
    simp only [apply] at hok
    exact finalize_inv h hok

theorem emptyState_inv : Inv emptyState := by
  refine ⟨rfl, ?_, ⟨fun _ => 0, ?_⟩, ?_⟩ <;> simp [emptyState]

theorem applyAll_inv {ops : List Op} :
    ∀ {st st' : BuilderState}, Inv st → applyAll st ops = .ok st' → Inv st' := by
  induction ops with
  | nil =>
    intro st st' h hok
    simp only [applyAll, Except.ok.injEq] at hok
    subst hok
    exact h
  | cons op rest ih =>
    intro st st' h hok
    unfold applyAll at hok
    cases ha : apply op st with
    | error e => rw [ha] at hok; exact absurd hok (by simp)
    | ok st1 => rw [ha] at hok; exact ih (inv_apply h ha) hok

/-- Every reachable builder state satisfies the invariant. -/
theorem reachable_inv {st : BuilderState} (h : Reachable st) : Inv st := by
  obtain ⟨ops, hops⟩ := h
  exact applyAll_inv emptyState_inv hops

/-! ### Shapes of successful operations -/

theorem declareNetwork_ok {st : BuilderState} {specs : List PartitionSpec}
    {hdl : Nat} {st' : BuilderState} (hok : declareNetwork st specs = .ok (hdl, st')) :
    st' = addPartitions st.nextId specs (pushNode st .networkFabric []) := by
  unfold declareNetwork at hok
  split at hok
  next => exact absurd hok (by simp)
  split at hok
  next => exact absurd hok (by simp)
  split at hok
  next => exact absurd hok (by simp)
  split at hok
  next => exact absurd hok (by simp)
  simp only [Except.ok.injEq, Prod.mk.injEq] at hok
  exact hok.2.symm

theorem declareTrafficFilter_ok {st : BuilderState} {o : String} {f hdl : Nat}
    {st' : BuilderState} (hok : declareTrafficFilter st o f = .ok (hdl, st')) :
    st' = pushNode st (.trafficFilter o f) [f] := by
  unfold declareTrafficFilter at hok
  split at hok
  next => exact absurd hok (by simp)
  split at hok
  next => exact absurd hok (by simp)
  simp only [Except.ok.injEq, Prod.mk.injEq] at hok
  exact hok.2.symm

theorem declareSecret_ok {st : BuilderState} {fields : List (String × String)}
    {g : GeneratedFieldSpec} {hdl : Nat} {st' : BuilderState}
    (hok : declareSecret st fields g = .ok (hdl, st')) :
    st' = pushNode st (.secretMaterial fields g) [] := by
  unfold declareSecret at hok
  split at hok
  next => exact absurd hok (by simp)
  simp only [Except.ok.injEq, Prod.mk.injEq] at hok
  exact hok.2.symm

theorem declareStatefulCluster_ok {st : BuilderState} {f p fl s : Nat} {ic : String}
    {cnt hdl : Nat} {st' : BuilderState}
    (hok : declareStatefulCluster st f p fl s ic cnt = .ok (hdl, st')) :
    st' = pushNode st (.statefulServiceCluster f p fl s ic cnt) [f, p, fl, s] := by
  unfold declareStatefulCluster at hok
  split at hok
  next => exact absurd hok (by simp)
  split at hok
  next => exact absurd hok (by simp)
  split at hok
  next => exact absurd hok (by simp)
  split at hok
  next => exact absurd hok (by simp)
  split at hok
  next => exact absurd hok (by simp)
  simp only [Except.ok.injEq, Prod.mk.injEq] at hok
  exact hok.2.symm

theorem declareComputeCluster_ok {st : BuilderState} {f hdl : Nat} {st' : BuilderState}
    (hok : declareComputeCluster st f = .ok (hdl, st')) :
    st' = pushNode st (.computeCluster f) [f] := by
  unfold declareComputeCluster at hok
  split at hok
  next => exact absurd hok (by simp)
  split at hok
  next => exact absurd hok (by simp)
  simp only [Except.ok.injEq, Prod.mk.injEq] at hok
  exact hok.2.symm

theorem declareTaskTemplate_ok {st : BuilderState} {img : String} {cpu mem : Nat}
    {ports : List Nat} {binds : List EnvBinding} {hdl : Nat} {st' : BuilderState}
    (hok : declareTaskTemplate st img cpu mem ports binds = .ok (hdl, st')) :
    st' = pushNode st (.taskTemplate img cpu mem ports binds)
      (binds.map (fun b => b.secret)) := by
  unfold declareTaskTemplate at hok
  split at hok
  next => exact absurd hok (by simp)
  split at hok
  next => exact absurd hok (by simp)
  simp only [Except.ok.injEq, Prod.mk.injEq] at hok
  exact hok.2.symm

theorem declareServiceInstance_ok {st : BuilderState} {cc tt fl p : Nat} {pub : Bool}
    {hdl : Nat} {st' : BuilderState}
    (hok : declareServiceInstance st cc tt fl p pub = .ok (hdl, st')) :
    st' = pushNode st (.serviceInstance cc tt fl p pub) [cc, tt, fl, p] := by
  unfold declareServiceInstance at hok
  split at hok
  next => exact absurd hok (by simp)
  split at hok
  next => exact absurd hok (by simp)
  split at hok
  next => exact absurd hok (by simp)
  split at hok
  next => exact absurd hok (by simp)
  split at hok
  next => exact absurd hok (by simp)
  split at hok
  next => exact absurd hok (by simp)
  simp only [Except.ok.injEq, Prod.mk.injEq] at hok
  exact hok.2.symm

theorem declareDistributor_ok {st : BuilderState} {f : Nat} {facing : Bool}
    {hdl : Nat} {st' : BuilderState}
    (hok : declareDistributor st f facing = .ok (hdl, st')) :
    st' = pushNode st (.trafficDistributor f facing) [f] := by
  unfold declareDistributor at hok
  split at hok
  next => exact absurd hok (by simp)
  split at hok
  next => exact absurd hok (by simp)
  simp only [Except.ok.injEq, Prod.mk.injEq] at hok
  exact hok.2.symm

theorem addListener_ok {st : BuilderState} {d po : Nat} {proto : String}
    {hdl : Nat} {st' : BuilderState}
    (hok : addListener st d po proto = .ok (hdl, st')) :
    st' = pushNode st (.listener d po proto) [d] := by
  unfold addListener at hok
  split at hok
  next => exact absurd hok (by simp)
  split at hok
  next => exact absurd hok (by simp)
  simp only [Except.ok.injEq, Prod.mk.injEq] at hok
  exact hok.2.symm

theorem addTargets_ok {st : BuilderState} {t : Nat} {tgts : List Nat}
    {st' : BuilderState} (hok : addTargets st t tgts = .ok st') :
    st' = { st with targets := st.targets ++ tgts.map (fun x => (t, x)) } := by
  unfold addTargets at hok
  split at hok
  next => exact absurd hok (by simp)
  split at hok
  next => exact absurd hok (by simp)
  split at hok
  next => exact absurd hok (by simp)
  simp only [Except.ok.injEq] at hok
  exact hok.symm

theorem addIngressRule_ok {st : BuilderState} {f s : Nat} {proto : String} {po : Nat}
    {descr : String} {st' : BuilderState}
    (hok : addIngressRule st f s proto po descr = .ok st') :
    st' = { st with ingressRules := st.ingressRules ++ [⟨f, s, proto, po, descr⟩] } := by
  unfold addIngressRule at hok
  split at hok
  next => exact absurd hok (by simp)
  split at hok
  next => exact absurd hok (by simp)
  simp only [Except.ok.injEq] at hok
  exact hok.symm

theorem grantPermission_ok {st : BuilderState} {idty : Nat} {acts : List String}
    {res : List Nat} {hdl : Nat} {st' : BuilderState}
    (hok : grantPermission st idty acts res = .ok (hdl, st')) :
    st' = pushNode st (.permissionGrant idty acts res) (idty :: res) := by
  unfold grantPermission at hok
  split at hok
  next => exact absurd hok (by simp)
  split at hok
  next => exact absurd hok (by simp)
  split at hok
  next => exact absurd hok (by simp)
  simp only [Except.ok.injEq, Prod.mk.injEq] at hok
  exact hok.2.symm

theorem addOrderingConstraint_ok {st : BuilderState} {b a : Nat} {st' : BuilderState}
    (hok : addOrderingConstraint st b a = .ok st') :
    st' = { st with edges := st.edges ++ [(b, a)] } := by
  unfold addOrderingConstraint at hok
  split at hok
  next => exact absurd hok (by simp)
  split at hok
  next => exact absurd hok (by simp)
  split at hok
  next => exact absurd hok (by simp)
  split at hok
  next => exact absurd hok (by simp)
  simp only [Except.ok.injEq] at hok
  exact hok.symm

theorem finalize_ok {st st' : BuilderState} (hok : finalize st = .ok st') :
    st.finalized = false ∧ st' = { st with finalized := true } := by
  unfold finalize at hok
  split at hok
  next => exact absurd hok (by simp)
  next h =>
    simp only [Except.ok.injEq] at hok
    exact ⟨by revert h; cases st.finalized <;> simp, hok.symm⟩

/-- How many nodes one operation declares. -/
def declaredCount : Op → Nat
  | .declareNetwork specs => 1 + specs.length
  | .addTargets _ _ => 0
  | .addIngressRule _ _ _ _ _ => 0
  | .addOrderingConstraint _ _ => 0
  | .finalize => 0
  | _ => 1

theorem addPartitions_nextId (fid : Nat) :
    ∀ (specs : List PartitionSpec) (st : BuilderState),
      (addPartitions fid specs st).nextId = st.nextId + specs.length := by
  intro specs
  induction specs with
  | nil => intro st; simp [addPartitions]
  | cons s rest ih =>
    intro st
    show (addPartitions fid rest (pushNode st (.addressPartition fid s) [fid])).nextId = _
    rw [ih]
    simp [pushNode]
    omega

theorem addPartitions_finalized (fid : Nat) :
    ∀ (specs : List PartitionSpec) (st : BuilderState),
      (addPartitions fid specs st).finalized = st.finalized := by
  intro specs
  induction specs with
  | nil => intro st; rfl
  | cons s rest ih =>
    intro st
    show (addPartitions fid rest (pushNode st (.addressPartition fid s) [fid])).finalized = _
    rw [ih]
    rfl

theorem map_snd_ok {r : Except TopologyError (Nat × BuilderState)} {st' : BuilderState}
    (h : r.map (fun x => x.2) = .ok st') : ∃ hdl, r = .ok (hdl, st') := by
  cases r with
  | error e => exact absurd h (by simp [Except.map])
  | ok pr =>
    obtain ⟨hdl, st2⟩ := pr
    simp only [Except.map, Except.ok.injEq] at h
    subst h
    exact ⟨hdl, rfl⟩

/-- A successful operation allocates exactly the ids of the nodes it
declares. -/
theorem apply_nextId {op : Op} {st st' : BuilderState} (hok : apply op st = .ok st') :
    st'.nextId = st.nextId + declaredCount op := by
  cases op with
  | declareNetwork specs =>
    simp only [apply] at hok
    obtain ⟨hdl, hd⟩ := map_snd_ok hok
    rw [declareNetwork_ok hd, addPartitions_nextId]
    show st.nextId + 1 + specs.length = st.nextId + (1 + specs.length)
    omega
  | declareTrafficFilter o f =>
    simp only [apply] at hok
    obtain ⟨hdl, hd⟩ := map_snd_ok hok
    rw [declareTrafficFilter_ok hd]
    rfl
  | declareSecret fields g =>
    simp only [apply] at hok
    obtain ⟨hdl, hd⟩ := map_snd_ok hok
    rw [declareSecret_ok hd]
    rfl
  | declareStatefulCluster f p fl s ic cnt =>
    simp only [apply] at hok
    obtain ⟨hdl, hd⟩ := map_snd_ok hok
    rw [declareStatefulCluster_ok hd]
    rfl
  | declareComputeCluster f =>
    simp only [apply] at hok
    obtain ⟨hdl, hd⟩ := map_snd_ok hok
    rw [declareComputeCluster_ok hd]
    rfl
  | declareTaskTemplate img cpu mem ports binds =>
    simp only [apply] at hok
    obtain ⟨hdl, hd⟩ := map_snd_ok hok
    rw [declareTaskTemplate_ok hd]
    rfl
  | declareServiceInstance cc tt fl p pub =>
    simp only [apply] at hok
    obtain ⟨hdl, hd⟩ := map_snd_ok hok
    rw [declareServiceInstance_ok hd]
    rfl
  | declareDistributor f facing =>
    simp only [apply] at hok
    obtain ⟨hdl, hd⟩ := map_snd_ok hok
    rw [declareDistributor_ok hd]
    rfl
  | addListener d po proto =>
    simp only [apply] at hok
    obtain ⟨hdl, hd⟩ := map_snd_ok hok
    rw [addListener_ok hd]
    rfl
  | addTargets t tgts =>
    simp only [apply] at hok
    rw [addTargets_ok hok]
    rfl
  | addIngressRule f s proto po descr =>
    simp only [apply] at hok
    rw [addIngressRule_ok hok]
    rfl
  | grantPermission idty acts res =>
    simp only [apply] at hok
    obtain ⟨hdl, hd⟩ := map_snd_ok hok
    rw [grantPermission_ok hd]
    rfl
  | addOrderingConstraint b a =>
    simp only [apply] at hok
    rw [addOrderingConstraint_ok hok]
    rfl
  | finalize =>
    simp only [apply] at hok
    rw [(finalize_ok hok).2]
    rfl

/-- No operation other than `finalize` changes the open/finalized flag. -/
theorem apply_finalized {op : Op} {st st' : BuilderState} (hok : apply op st = .ok st')
    (hne : op ≠ Op.finalize) : st'.finalized = st.finalized := by
  cases op with
  | declareNetwork specs =>
    simp only [apply] at hok
    obtain ⟨hdl, hd⟩ := map_snd_ok hok
    rw [declareNetwork_ok hd, addPartitions_finalized]
    rfl
  | declareTrafficFilter o f =>
    simp only [apply] at hok
    obtain ⟨hdl, hd⟩ := map_snd_ok hok
    rw [declareTrafficFilter_ok hd]
    rfl
  | declareSecret fields g =>
    simp only [apply] at hok
    obtain ⟨hdl, hd⟩ := map_snd_ok hok
    rw [declareSecret_ok hd]
    rfl
  | declareStatefulCluster f p fl s ic cnt =>
    simp only [apply] at hok
    obtain ⟨hdl, hd⟩ := map_snd_ok hok
    rw [declareStatefulCluster_ok hd]
    rfl
  | declareComputeCluster f =>
    simp only [apply] at hok
    obtain ⟨hdl, hd⟩ := map_snd_ok hok
    rw [declareComputeCluster_ok hd]
    rfl
  | declareTaskTemplate img cpu mem ports binds =>
    simp only [apply] at hok
    obtain ⟨hdl, hd⟩ := map_snd_ok hok
    rw [declareTaskTemplate_ok hd]
    rfl
  | declareServiceInstance cc tt fl p pub =>
    simp only [apply] at hok
    obtain ⟨hdl, hd⟩ := map_snd_ok hok
    rw [declareServiceInstance_ok hd]
    rfl
  | declareDistributor f facing =>
    simp only [apply] at hok
    obtain ⟨hdl, hd⟩ := map_snd_ok hok
    rw [declareDistributor_ok hd]
    rfl
  | addListener d po proto =>
    simp only [apply] at hok
    obtain ⟨hdl, hd⟩ := map_snd_ok hok
    rw [addListener_ok hd]
    rfl
  | addTargets t tgts =>
    simp only [apply] at hok
    rw [addTargets_ok hok]
  | addIngressRule f s proto po descr =>
    simp only [apply] at hok
    rw [addIngressRule_ok hok]
  | grantPermission idty acts res =>
    simp only [apply] at hok
    obtain ⟨hdl, hd⟩ := map_snd_ok hok
    rw [grantPermission_ok hd]
    rfl
  | addOrderingConstraint b a =>
    simp only [apply] at hok
    rw [addOrderingConstraint_ok hok]
  | finalize => exact absurd rfl hne

theorem applyAll_nextId {ops : List Op} :
    ∀ {st st' : BuilderState}, applyAll st ops = .ok st' →
      st'.nextId = st.nextId + (ops.map declaredCount).sum := by
  induction ops with
  | nil =>
    intro st st' hok
    simp only [applyAll, Except.ok.injEq] at hok
    subst hok
    simp
  | cons op rest ih =>
    intro st st' hok
    unfold applyAll at hok
    cases ha : apply op st with
    | error e => rw [ha] at hok; exact absurd hok (by simp)
    | ok st1 =>
      rw [ha] at hok
      have h1 := apply_nextId ha
      have h2 := ih hok
      simp only [List.map_cons, List.sum_cons]
      omega

/-! ### Derived views of the graph used by the claims -/

/-- The ordered ingress-rule set of one traffic filter. -/
def rulesOf (st : BuilderState) (f : Nat) : List IngressRule :=
  st.ingressRules.filter (fun r => r.filter == f)

/-- All PermissionGrant nodes of the graph: identity, action set, resource
set, in declaration order. -/
def grantsOf (nodes : List TopoNode) : List (Nat × List String × List Nat) :=
  nodes.filterMap (fun n =>
    match n.payload with
    | .permissionGrant i a r => some (i, a, r)
    | _ => none)

/-- Every SecretMaterial handle referenced by the environment bindings of all
task templates, in declaration order. -/
def templateSecretRefs (nodes : List TopoNode) : List Nat :=
  (nodes.map (fun n =>
    match n.payload with
    | .taskTemplate _ _ _ _ binds => binds.map (fun b => b.secret)
    | _ => [])).flatten

/-- The operation is a SecretMaterial declaration. -/
def isSecretDecl : Op → Bool
  | .declareSecret _ _ => true
  | _ => false

/-- The operation is the stateful-service (managed database) declaration. -/
def isStatefulDecl : Op → Bool
  | .declareStatefulCluster _ _ _ _ _ _ => true
  | _ => false

/-- The operation is the compute-cluster declaration. -/
def isComputeDecl : Op → Bool
  | .declareComputeCluster _ => true
  | _ => false

/-- The operation is the task-template declaration. -/
def isTaskTemplateDecl : Op → Bool
  | .declareTaskTemplate _ _ _ _ _ => true
  | _ => false

/-- The operation is the service-instance declaration. -/
def isServiceDecl : Op → Bool
  | .declareServiceInstance _ _ _ _ _ => true
  | _ => false

/-- The builder state just before the explicit ordering constraint of the
source sequence. -/
def stack14 : BuilderState :=
  ((applyAll emptyState (stackOps.take 14)).toOption).getD emptyState

theorem stack14_step :
    apply (Op.addOrderingConstraint 5 10) stack14 = .ok stackOpen := by rfl

theorem stackOpen_finalize_step : apply Op.finalize stackOpen = .ok stackFinal := by rfl

/-- On an invariant-satisfying open builder, `addOrderingConstraint` rejects
with `TopologyCycleError` exactly the edges whose addition closes a cycle. -/
theorem addOrderingConstraint_cycle_iff {st : BuilderState} {b a : Nat}
    (hinv : Inv st) (hfin : st.finalized = false)
    (hb : b ∈ nodeIds st.nodes) (ha : a ∈ nodeIds st.nodes) :
    addOrderingConstraint st b a = .error .cycleError ↔
      HasCycle (st.edges ++ [(b, a)]) := by
  have hacyc : ¬ HasCycle st.edges := ranked_acyclic hinv.ranked
  rw [hasCycle_append_iff hacyc]
  have hb' : nodeDeclared st.nodes b = true := mem_nodeIds_iff_lookup.mp hb
  have ha' : nodeDeclared st.nodes a = true := mem_nodeIds_iff_lookup.mp ha
  by_cases hrb : reachRefl st.edges st.nodes.length a b = true
  · simp only [addOrderingConstraint, hfin, Bool.false_eq_true, if_false, hb', ha',
      Bool.true_eq_false, hrb, if_true]
    exact iff_of_true trivial (reachRefl_sound hrb)
  · simp only [addOrderingConstraint, hfin, Bool.false_eq_true, if_false, hb', ha',
      Bool.true_eq_false, hrb, if_true]
    refine iff_of_false (by simp) ?_
    intro hrtg
    obtain ⟨rank, hrank⟩ := hinv.ranked
    exact hrb (reachRefl_complete hrank hinv.edges_mem ha hrtg (by simp [nodeIds]))

/-! ### The claims -/

/-- C1: in every reachable builder state the graph never contains a literal
secret value — every consumer of a SecretMaterial holds only a typed
reference handle.  The stateful cluster's administrative identity is a handle
that resolves to a declared SecretMaterial node, every environment binding of
a task template holds a (SecretMaterial handle, field name) pair whose handle
resolves to a declared SecretMaterial node, and every resource handle of a
permission grant resolves to a declared node; SecretMaterial nodes themselves
store only the template of known fields and the generation recipe, never a
value. -/
theorem c1_secret_consumers_hold_typed_references :
    ∀ st : BuilderState, Reachable st → ∀ n ∈ st.nodes,
      (∀ f p fl s ic cnt, n.payload = .statefulServiceCluster f p fl s ic cnt →
        isSecret st.nodes s = true) ∧
      (∀ img cpu mem ports binds, n.payload = .taskTemplate img cpu mem ports binds →
        ∀ b ∈ binds, isSecret st.nodes b.secret = true) ∧
      (∀ idty acts res, n.payload = .permissionGrant idty acts res →
        ∀ r ∈ res, nodeDeclared st.nodes r = true) := by
  intro st hr n hn
  have hp := (reachable_inv hr).payloads n hn
  refine ⟨?_, ?_, ?_⟩
  · intro f p fl s ic cnt he
    rw [he] at hp
    exact hp.2.2.2
  · intro img cpu mem ports binds he b hb
    rw [he] at hp
    exact hp b hb
  · intro idty acts res he r hrm
    rw [he] at hp
    exact hp.2 r hrm

theorem c1_witness :
    isSecret stackFinal.nodes 4 = true ∧ nodeDeclared stackFinal.nodes 4 = true := by
  have h := c1_secret_consumers_hold_typed_references stackFinal ⟨stackOps, stackFinal_ok⟩
    ⟨13, .permissionGrant 10 ["secretsmanager:GetSecretValue"] [4]⟩ (by decide)
  have h' := c1_secret_consumers_hold_typed_references stackFinal ⟨stackOps, stackFinal_ok⟩
    ⟨5, .statefulServiceCluster 0 2 3 4 "t3.medium" 1⟩ (by decide)
  exact ⟨h'.1 0 2 3 4 "t3.medium" 1 rfl,
    h.2.2 10 ["secretsmanager:GetSecretValue"] [4] rfl 4 (by decide)⟩

/-- C2: declaring a stateful service cluster on a partition whose
reachability class is not `isolated` fails with `TopologyConfigError` on any
open builder, and consequently in every reachable state every
StatefulServiceCluster node is bound to a partition of class `isolated` —
never to an externally reachable one. -/
theorem c2_stateful_cluster_requires_isolated_partition :
    (∀ (st : BuilderState) (f p fl s : Nat) (ic : String) (cnt : Nat),
      st.finalized = false → partitionClass st.nodes p ≠ some .isolated →
      declareStatefulCluster st f p fl s ic cnt = .error .configError) ∧
    (∀ st : BuilderState, Reachable st → ∀ n ∈ st.nodes,
      ∀ f p fl s ic cnt, n.payload = .statefulServiceCluster f p fl s ic cnt →
      partitionClass st.nodes p = some .isolated) := by
  constructor
  · intro st f p fl s ic cnt hfin hp
    unfold declareStatefulCluster
    by_cases hf : isFabric st.nodes f = false
    · simp [hfin, hf]
    · simp [hfin, hf, hp]
  · intro st hr n hn f p fl s ic cnt he
    have hp := (reachable_inv hr).payloads n hn
    rw [he] at hp
    exact hp.2.1

theorem c2_witness :
    declareStatefulCluster emptyState 0 1 2 3 "t3.medium" 1 = .error .configError ∧
    partitionClass stackFinal.nodes 2 = some .isolated := by
  refine ⟨c2_stateful_cluster_requires_isolated_partition.1 emptyState 0 1 2 3
    "t3.medium" 1 rfl (by decide), ?_⟩
  exact c2_stateful_cluster_requires_isolated_partition.2 stackFinal
    ⟨stackOps, stackFinal_ok⟩ ⟨5, .statefulServiceCluster 0 2 3 4 "t3.medium" 1⟩
    (by decide) 0 2 3 4 "t3.medium" 1 rfl

/-- C3: every reachable builder state has an acyclic dependency graph (union
of implicit reference edges and explicit ordering constraints); on an open
reachable builder, `addOrderingConstraint before after` fails with
`TopologyCycleError` exactly when adding the edge would create a cycle; in
particular adding the reverse of an existing edge fails; and topologically
sorting any finalized reachable graph succeeds. -/
theorem c3_acyclic_graph_and_cycle_detection :
    (∀ st : BuilderState, Reachable st → ¬ HasCycle st.edges) ∧
    (∀ (st : BuilderState) (b a : Nat), Reachable st → st.finalized = false →
      b ∈ nodeIds st.nodes → a ∈ nodeIds st.nodes →
      (addOrderingConstraint st b a = .error .cycleError ↔
        HasCycle (st.edges ++ [(b, a)]))) ∧
    (∀ (st : BuilderState) (x y : Nat), Reachable st → st.finalized = false →
      (x, y) ∈ st.edges → addOrderingConstraint st y x = .error .cycleError) ∧
    (∀ st : BuilderState, Reachable st → st.finalized = true →
      (topoSort st).isSome = true) := by
  refine ⟨?_, ?_, ?_, ?_⟩
  · intro st hr
    exact ranked_acyclic (reachable_inv hr).ranked
  · intro st b a hr hfin hb ha
    exact addOrderingConstraint_cycle_iff (reachable_inv hr) hfin hb ha
  · intro st x y hr hfin hxy
    have hinv := reachable_inv hr
    obtain ⟨hx, hy⟩ := hinv.edges_mem (x, y) hxy
    have hcyc : HasCycle (st.edges ++ [(y, x)]) := by
      refine ⟨x, ?_⟩
      have h1 : EdgeRel (st.edges ++ [(y, x)]) x y := edgeRel_append.mpr (Or.inl hxy)
      have h2 : EdgeRel (st.edges ++ [(y, x)]) y x := edgeRel_append.mpr (Or.inr ⟨rfl, rfl⟩)
      exact (Relation.TransGen.single h1).tail h2
    exact (addOrderingConstraint_cycle_iff hinv hfin hy hx).mpr hcyc
  · intro st hr _
    obtain ⟨rank, hrank⟩ := (reachable_inv hr).ranked
    unfold topoSort
    exact kahnAux_isSome hrank st.nodes.length (nodeIds st.nodes) (by simp [nodeIds])

theorem c3_witness :
    ¬ HasCycle stackFinal.edges ∧
    (addOrderingConstraint stackOpen 10 5 = .error .cycleError ↔
      HasCycle (stackOpen.edges ++ [(10, 5)])) ∧
    addOrderingConstraint stackOpen 10 5 = .error .cycleError ∧
    (topoSort stackFinal).isSome = true := by
  refine ⟨?_, ?_, ?_, ?_⟩
  · exact c3_acyclic_graph_and_cycle_detection.1 stackFinal ⟨stackOps, stackFinal_ok⟩
  · exact c3_acyclic_graph_and_cycle_detection.2.1 stackOpen 10 5
      ⟨stackOps.take 15, stackOpen_ok⟩ stackOpen_finalized (by decide) (by decide)
  · exact c3_acyclic_graph_and_cycle_detection.2.2.1 stackOpen 5 10
      ⟨stackOps.take 15, stackOpen_ok⟩ stackOpen_finalized (by decide)
  · exact c3_acyclic_graph_and_cycle_detection.2.2.2 stackFinal
      ⟨stackOps, stackFinal_ok⟩ stackFinal_finalized

/-- C4: after any successful sequence of declarations on the open builder,
`finalize()` succeeds, adds no node and drops no node: the node set of the
returned graph is exactly the ids `0 .. k-1` where `k` is the total number of
nodes declared by the operations of the sequence. -/
theorem c4_finalize_returns_exactly_declared_nodes :
    ∀ (ops : List Op) (st : BuilderState), applyAll emptyState ops = .ok st →
      st.finalized = false →
      ∃ st' : BuilderState, apply Op.finalize st = .ok st' ∧ st'.nodes = st.nodes ∧
        nodeIds st'.nodes = List.range ((ops.map declaredCount).sum) := by
  intro ops st hok hfin
  have hinv : Inv st := applyAll_inv emptyState_inv hok
  have hnext : st.nextId = (ops.map declaredCount).sum := by
    have h := applyAll_nextId hok
    simpa [emptyState] using h
  refine ⟨{ st with finalized := true }, ?_, rfl, ?_⟩
  · simp [apply, finalize, hfin]
  · show nodeIds st.nodes = _
    rw [hinv.ids_range, hnext]

theorem c4_witness :
    ∃ st' : BuilderState, apply Op.finalize stackOpen = .ok st' ∧
      st'.nodes = stackOpen.nodes ∧
      nodeIds st'.nodes = List.range (((stackOps.take 15).map declaredCount).sum) :=
  c4_finalize_returns_exactly_declared_nodes (stackOps.take 15) stackOpen stackOpen_ok
    stackOpen_finalized

/-- C5: declaring a service instance with `assignPublicAddress = true` on a
partition whose reachability class is not `externallyReachable` fails with
`TopologyConfigError` on any open builder. -/
theorem c5_public_service_requires_reachable_partition :
    ∀ (st : BuilderState) (cc tt fl p : Nat), st.finalized = false →
      partitionClass st.nodes p ≠ some .externallyReachable →
      declareServiceInstance st cc tt fl p true = .error .configError := by
  intro st cc tt fl p hfin hp
  unfold declareServiceInstance
  by_cases h1 : isComputeCluster st.nodes cc = false
  · simp [hfin, h1]
  · by_cases h2 : isTaskTemplate st.nodes tt = false
    · simp [hfin, h1, h2]
    · by_cases h3 : isFilter st.nodes fl = false
      · simp [hfin, h1, h2, h3]
      · by_cases h4 : (partitionClass st.nodes p).isSome = false
        · simp [hfin, h1, h2, h3, h4]
        · simp [hfin, h1, h2, h3, h4, hp]

theorem c5_witness :
    declareServiceInstance stackOpen 7 9 6 2 true = .error .configError :=
  c5_public_service_requires_reachable_partition stackOpen 7 9 6 2
    stackOpen_finalized (by decide)

/-- C6: on any open builder, `addIngressRule` fails with
`TopologyConfigError` exactly when the source filter is not a TrafficFilter
already present in the graph; when the source filter was declared earlier the
call succeeds and appends exactly one rule at the end of the target filter's
ordered rule set, preserving declaration order. -/
theorem c6_ingress_rule_fails_iff_source_undeclared :
    ∀ (st : BuilderState) (f s : Nat) (proto : String) (po : Nat) (descr : String),
      st.finalized = false →
      ((addIngressRule st f s proto po descr = .error .configError ↔
        isFilter st.nodes s = false) ∧
       (isFilter st.nodes s = true →
        ∃ st' : BuilderState, addIngressRule st f s proto po descr = .ok st' ∧
          st'.ingressRules = st.ingressRules ++ [⟨f, s, proto, po, descr⟩] ∧
          rulesOf st' f = rulesOf st f ++ [⟨f, s, proto, po, descr⟩])) := by
  intro st f s proto po descr hfin
  constructor
  · by_cases hs : isFilter st.nodes s = false
    · simp [addIngressRule, hfin, hs]
    · simp [addIngressRule, hfin, hs]
  · intro hs
    have hs' : ¬ isFilter st.nodes s = false := by simp [hs]
    refine ⟨{ st with ingressRules := st.ingressRules ++ [⟨f, s, proto, po, descr⟩] },
      ?_, rfl, ?_⟩
    · simp [addIngressRule, hfin, hs']
    · show List.filter (fun r => r.filter == f)
        (st.ingressRules ++ [(⟨f, s, proto, po, descr⟩ : IngressRule)]) =
        rulesOf st f ++ [⟨f, s, proto, po, descr⟩]
      rw [List.filter_append]
      simp [rulesOf, List.filter]

theorem c6_witness :
    ((addIngressRule stackOpen 3 6 "tcp" 27017 "Allow MongoDB traffic from ECS" =
        .error .configError ↔ isFilter stackOpen.nodes 6 = false) ∧
     (isFilter stackOpen.nodes 6 = true →
      ∃ st' : BuilderState,
        addIngressRule stackOpen 3 6 "tcp" 27017 "Allow MongoDB traffic from ECS" =
          .ok st' ∧
        st'.ingressRules = stackOpen.ingressRules ++
          [⟨3, 6, "tcp", 27017, "Allow MongoDB traffic from ECS"⟩] ∧
        rulesOf st' 3 = rulesOf stackOpen 3 ++
          [⟨3, 6, "tcp", 27017, "Allow MongoDB traffic from ECS"⟩])) :=
  c6_ingress_rule_fails_iff_source_undeclared stackOpen 3 6 "tcp" 27017
    "Allow MongoDB traffic from ECS" stackOpen_finalized

/-- C7: on any open reachable builder, `grantPermission` fails with
`TopologyConfigError` at the call itself whenever some resource handle of its
resource set is absent from the graph; when the identity is a declared
ServiceInstance and every resource handle is present, the call succeeds and
returns a fresh PermissionGrant node holding the identity, action set and
resource set. -/
theorem c7_grant_permission_validates_resources_at_call :
    ∀ (st : BuilderState) (idty : Nat) (acts : List String) (res : List Nat),
      Reachable st → st.finalized = false →
      ((∃ r ∈ res, nodeDeclared st.nodes r = false) →
        grantPermission st idty acts res = .error .configError) ∧
      (isServiceInstance st.nodes idty = true →
       (∀ r ∈ res, nodeDeclared st.nodes r = true) →
        grantPermission st idty acts res =
          .ok (st.nextId, pushNode st (.permissionGrant idty acts res) (idty :: res)) ∧
        lookupNode (pushNode st (.permissionGrant idty acts res) (idty :: res)).nodes
          st.nextId = some (.permissionGrant idty acts res)) := by
  intro st idty acts res hr hfin
  constructor
  · rintro ⟨r, hrm, hrf⟩
    by_cases hid : isServiceInstance st.nodes idty = false
    · simp [grantPermission, hfin, hid]
    · have hall : res.all (fun x => nodeDeclared st.nodes x) = false := by
        cases hall : res.all (fun x => nodeDeclared st.nodes x) with
        | false => rfl
        | true =>
          have hx := List.all_eq_true.mp hall r hrm
          rw [hrf] at hx
          exact absurd hx (by simp)
      simp [grantPermission, hfin, hid, hall]
  · intro hid hres
    have hid' : ¬ isServiceInstance st.nodes idty = false := by simp [hid]
    have hall : res.all (fun x => nodeDeclared st.nodes x) = true :=
      List.all_eq_true.mpr hres
    have hall' : ¬ res.all (fun x => nodeDeclared st.nodes x) = false := by simp [hall]
    refine ⟨by simp [grantPermission, hfin, hid', hall'], ?_⟩
    exact lookup_pushNode_self st _ _ (reachable_inv hr).ids_range

theorem c7_witness :
    grantPermission stackOpen 10 ["secretsmanager:GetSecretValue"] [99] =
      .error .configError ∧
    grantPermission stackOpen 10 ["secretsmanager:GetSecretValue"] [4] =
      .ok (stackOpen.nextId, pushNode stackOpen
        (.permissionGrant 10 ["secretsmanager:GetSecretValue"] [4]) [10, 4]) := by
  constructor
  · exact (c7_grant_permission_validates_resources_at_call stackOpen 10
      ["secretsmanager:GetSecretValue"] [99] ⟨stackOps.take 15, stackOpen_ok⟩
      stackOpen_finalized).1 ⟨99, by decide, by decide⟩
  · exact ((c7_grant_permission_validates_resources_at_call stackOpen 10
      ["secretsmanager:GetSecretValue"] [4] ⟨stackOps.take 15, stackOpen_ok⟩
      stackOpen_finalized).2 (by decide) (by decide)).1

/-- C8: the builder is a two-state machine.  Every operation — declare, add
or grant — issued on a finalized builder fails with `TopologyStateError` (and
produces no new state, so the graph is unchanged); no operation other than
`finalize` changes the open/finalized flag; and `finalize` succeeds exactly
from the open state, moving it one-way to finalized. -/
theorem c8_two_state_machine :
    (∀ (op : Op) (st : BuilderState), st.finalized = true →
      apply op st = .error .stateError) ∧
    (∀ (op : Op) (st st' : BuilderState), apply op st = .ok st' → op ≠ Op.finalize →
      st'.finalized = st.finalized) ∧
    (∀ st st' : BuilderState, apply Op.finalize st = .ok st' →
      st.finalized = false ∧ st'.finalized = true) := by
  refine ⟨?_, ?_, ?_⟩
  · intro op st h
    cases op <;> simp [apply, declareNetwork, declareTrafficFilter, declareSecret,
      declareStatefulCluster, declareComputeCluster, declareTaskTemplate,
      declareServiceInstance, declareDistributor, addListener, addTargets,
      addIngressRule, grantPermission, addOrderingConstraint, finalize, h, Except.map]
  · intro op st st' hok hne
    exact apply_finalized hok hne
  · intro st st' hok
    simp only [apply] at hok
    obtain ⟨h1, h2⟩ := finalize_ok hok
    subst h2
    exact ⟨h1, rfl⟩

theorem c8_witness :
    apply (Op.declareSecret [] ⟨"payloadSecret", 32, ""⟩) stackFinal =
      .error .stateError ∧
    stackOpen.finalized = stack14.finalized ∧
    (stackOpen.finalized = false ∧ stackFinal.finalized = true) := by
  refine ⟨?_, ?_, ?_⟩
  · exact c8_two_state_machine.1 (Op.declareSecret [] ⟨"payloadSecret", 32, ""⟩)
      stackFinal stackFinal_finalized
  · exact c8_two_state_machine.2.1 (Op.addOrderingConstraint 5 10) stack14 stackOpen
      stack14_step (by decide)
  · exact c8_two_state_machine.2.2 stackOpen stackFinal stackOpen_finalize_step

/-- C9 counterexample: in the source construction sequence the SecretMaterial
declarations sit at positions 2 (database credentials) and 6 (payload
secret), while the stateful-service declaration sits at position 3 and the
compute-cluster declaration at position 5; the payload secret therefore
occurs after both, refuting the claim that every SecretMaterial declaration
precedes them. -/
theorem c9_counterexample :
    (List.range stackOps.length).filter
        (fun i => isSecretDecl (stackOps.getD i Op.finalize)) = [2, 6] ∧
    isStatefulDecl (stackOps.getD 3 Op.finalize) = true ∧
    isComputeDecl (stackOps.getD 5 Op.finalize) = true ∧
    ¬ (6 : Nat) < 3 ∧ ¬ (6 : Nat) < 5 := by decide

/-- C9 amended: in the source construction sequence every SecretMaterial
declaration precedes the task-template declaration and the service-instance
declaration; the database-credentials secret (position 2) additionally
precedes the stateful-service declaration (position 3) and the
compute-cluster declaration (position 5); but the payload secret
(position 6) is declared after both of those. -/
theorem c9_amended_secret_declaration_order :
    (List.range stackOps.length).filter
        (fun i => isSecretDecl (stackOps.getD i Op.finalize)) = [2, 6] ∧
    (List.range stackOps.length).filter
        (fun i => isStatefulDecl (stackOps.getD i Op.finalize)) = [3] ∧
    (List.range stackOps.length).filter
        (fun i => isComputeDecl (stackOps.getD i Op.finalize)) = [5] ∧
    (List.range stackOps.length).filter
        (fun i => isTaskTemplateDecl (stackOps.getD i Op.finalize)) = [7] ∧
    (List.range stackOps.length).filter
        (fun i => isServiceDecl (stackOps.getD i Op.finalize)) = [8] ∧
    2 < 3 ∧ 2 < 5 ∧ 2 < 7 ∧ 2 < 8 ∧ 6 < 7 ∧ 6 < 8 ∧ 3 < 6 ∧ 5 < 6 := by decide

/-- C10: in the finalized source graph the task template's environment
bindings reference exactly two distinct SecretMaterial nodes — the database
credentials (node 4, twice: username and password) and the payload secret
(node 8) — while exactly one explicit PermissionGrant exists, granting the
action set containing only `secretsmanager:GetSecretValue` on the
database-credentials secret alone; no explicit grant references the payload
secret. -/
theorem c10_single_explicit_grant :
    templateSecretRefs stackFinal.nodes = [4, 4, 8] ∧
    (4 : Nat) ≠ 8 ∧
    isSecret stackFinal.nodes 4 = true ∧
    isSecret stackFinal.nodes 8 = true ∧
    grantsOf stackFinal.nodes = [(10, ["secretsmanager:GetSecretValue"], [4])] ∧
    (∀ g ∈ grantsOf stackFinal.nodes, (8 : Nat) ∉ g.2.2) := by decide

end Topo
